import Mathlib

/-!
# Verification of the swc-plugin-workflow transform

Shallow embedding of `packages/swc-plugin-workflow/transform/src/naming.rs` and
`packages/swc-plugin-workflow/transform/src/lib.rs` (directive scanning,
function classification, registration, hoisting names, dead-code elimination,
metadata emission), with theorems checking the specification's claims.

Strings are modelled by Lean `String`; Rust `HashSet<String>` is modelled by a
`List String` with membership-guarded insertion (only membership and final
sorted output are observable in the modelled code); source spans carry no
information relevant to any claim and are dropped or kept as plain `Nat`.
-/

namespace Workflow

/-! ## naming.rs -/

/-- `format_name` (naming.rs line 10):
`format!("{prefix}//{module_path}//{identifier}")`. -/
def format_name (prefix_ module_path identifier : String) : String :=
  prefix_ ++ "//" ++ module_path ++ "//" ++ identifier

/-- Rust `str::starts_with`, via the character list. -/
def strStartsWith (s prefix_ : String) : Bool :=
  prefix_.data.isPrefixOf s.data

/-- Rust `str::ends_with`, via the character list. -/
def strEndsWith (s suffix : String) : Bool :=
  suffix.data.isSuffixOf s.data

/-- Rust `str::strip_suffix`: drop a matching suffix. -/
def stripSuffix (s suffix : String) : Option String :=
  if strEndsWith s suffix then some ⟨s.data.take (s.data.length - suffix.data.length)⟩
  else none

/-- The extension list of `strip_extension` (naming.rs line 34), in source order. -/
def extensions : List String :=
  [".d.ts", ".d.mts", ".d.cts", ".tsx", ".jsx", ".mts", ".cts", ".ts", ".js", ".mjs", ".cjs"]

/-- `strip_extension` (naming.rs line 32): strip the first matching suffix. -/
def strip_extension (path : String) : String :=
  match extensions.find? (fun ext => strEndsWith path ext) with
  | some ext => (stripSuffix path ext).getD path
  | none => path

/-- `get_module_path` (naming.rs line 20). -/
def get_module_path (module_specifier : Option String) (filepath : String) : String :=
  match module_specifier with
  | some specifier => specifier
  | none => "./" ++ strip_extension filepath

/-! ## Transform configuration (`StepTransform.mode/filename/module_specifier`) -/

/-- `TransformMode` (lib.rs line 283). -/
inductive TransformMode where
  | step
  | workflow
  | client
deriving DecidableEq, Repr

/-- The configuration fields of `StepTransform` that identity generation reads. -/
structure TransformConfig where
  filename : String
  module_specifier : Option String
deriving DecidableEq, Repr

/-- `StepTransform::get_module_path` (lib.rs line 1262). -/
def TransformConfig.module_path (cfg : TransformConfig) : String :=
  get_module_path cfg.module_specifier cfg.filename

/-- `StepTransform::create_id` (lib.rs lines 1268-1291).  The span is the
`span.lo.0` number used when no name is available. -/
def create_id (cfg : TransformConfig) (fn_name : Option String) (span_lo : Nat)
    (is_workflow : Bool) : String :=
  match fn_name with
  | some name =>
    if strStartsWith name "__builtin" then
      name
    else
      let prefix_ := if is_workflow then "workflow" else "step"
      format_name prefix_ cfg.module_path name
  | none =>
    let prefix_ := if is_workflow then "workflow" else "step"
    format_name prefix_ cfg.module_path (toString span_lo)

/-! ## Separator-freeness side conditions, at the character-list level -/

/-- Is the head character a `'/'`? -/
def headIsSlash : List Char → Bool
  | [] => false
  | c :: _ => c == '/'

/-- Does the character list contain two consecutive `'/'` (the `"//"` separator)? -/
def hasDoubleSlash : List Char → Bool
  | [] => false
  | c :: rest => (c == '/' && headIsSlash rest) || hasDoubleSlash rest

/-- Does the character list end with `'/'`? -/
def endsWithSlash : List Char → Bool
  | [] => false
  | [c] => c == '/'
  | _ :: c :: rest => endsWithSlash (c :: rest)

theorem hasDoubleSlash_tail {c : Char} {l : List Char}
    (h : hasDoubleSlash (c :: l) = false) : hasDoubleSlash l = false := by
  simp [hasDoubleSlash] at h
  exact h.2

theorem endsWithSlash_tail {c : Char} {l : List Char}
    (h : endsWithSlash (c :: l) = false) : endsWithSlash l = false := by
  cases l with
  | nil => rfl
  | cons d rest => simpa [endsWithSlash] using h

/-- Splitting at a separator character that occurs in neither prefix is unambiguous. -/
theorem append_sep_inj (sep : Char) :
    ∀ (k₁ k₂ r₁ r₂ : List Char), sep ∉ k₁ → sep ∉ k₂ →
      k₁ ++ sep :: r₁ = k₂ ++ sep :: r₂ → k₁ = k₂ ∧ r₁ = r₂ := by
  intro k₁
  induction k₁ with
  | nil =>
    intro k₂ r₁ r₂ _ hk₂ h
    cases k₂ with
    | nil => simpa using h
    | cons c k₂' =>
      simp only [List.nil_append, List.cons_append, List.cons.injEq] at h
      exact absurd (h.1 ▸ List.mem_cons_self c k₂') hk₂
  | cons c k₁' ih =>
    intro k₂ r₁ r₂ hk₁ hk₂ h
    cases k₂ with
    | nil =>
      simp only [List.cons_append, List.nil_append, List.cons.injEq] at h
      exact absurd (h.1 ▸ List.mem_cons_self c k₁') hk₁
    | cons d k₂' =>
      simp only [List.cons_append, List.cons.injEq] at h
      obtain ⟨hcd, htail⟩ := h
      have hk₁' : sep ∉ k₁' := fun hm => hk₁ (List.mem_cons_of_mem _ hm)
      have hk₂' : sep ∉ k₂' := fun hm => hk₂ (List.mem_cons_of_mem _ hm)
      obtain ⟨h₁, h₂⟩ := ih k₂' r₁ r₂ hk₁' hk₂' htail
      exact ⟨by rw [hcd, h₁], h₂⟩

/-- Splitting at the two-character separator `"//"` is unambiguous provided the
prefixes contain no `"//"` and do not end with `'/'`. -/
theorem append_double_slash_inj :
    ∀ (m₁ m₂ n₁ n₂ : List Char),
      hasDoubleSlash m₁ = false → hasDoubleSlash m₂ = false →
      endsWithSlash m₁ = false → endsWithSlash m₂ = false →
      m₁ ++ '/' :: '/' :: n₁ = m₂ ++ '/' :: '/' :: n₂ → m₁ = m₂ ∧ n₁ = n₂ := by
  intro m₁
  induction m₁ with
  | nil =>
    intro m₂ n₁ n₂ _ hds₂ _ hes₂ h
    cases m₂ with
    | nil => simpa using h
    | cons c m₂' =>
      exfalso
      simp only [List.nil_append, List.cons_append, List.cons.injEq] at h
      obtain ⟨hc, h⟩ := h
      subst hc
      cases m₂' with
      | nil => simp [endsWithSlash] at hes₂
      | cons c₂ m₂'' =>
        simp only [List.cons_append, List.cons.injEq] at h
        obtain ⟨hc₂, -⟩ := h
        subst hc₂
        simp [hasDoubleSlash, headIsSlash] at hds₂
  | cons c m₁' ih =>
    intro m₂ n₁ n₂ hds₁ hds₂ hes₁ hes₂ h
    cases m₂ with
    | nil =>
      exfalso
      simp only [List.cons_append, List.nil_append, List.cons.injEq] at h
      obtain ⟨hc, h⟩ := h
      subst hc
      cases m₁' with
      | nil => simp [endsWithSlash] at hes₁
      | cons c₂ m₁'' =>
        simp only [List.cons_append, List.cons.injEq] at h
        obtain ⟨hc₂, -⟩ := h
        subst hc₂
        simp [hasDoubleSlash, headIsSlash] at hds₁
    | cons d m₂' =>
      simp only [List.cons_append, List.cons.injEq] at h
      obtain ⟨hcd, htail⟩ := h
      obtain ⟨h₁, h₂⟩ := ih m₂' n₁ n₂ (hasDoubleSlash_tail hds₁) (hasDoubleSlash_tail hds₂)
        (endsWithSlash_tail hes₁) (endsWithSlash_tail hes₂) htail
      exact ⟨by rw [hcd, h₁], h₂⟩

/-! String-level wrappers for the side conditions. -/

/-- The string contains the identity separator `"//"`. -/
def containsSep (s : String) : Bool := hasDoubleSlash s.data

/-- The string ends with the separator character `'/'`. -/
def endsWithSep (s : String) : Bool := endsWithSlash s.data

/-- The string starts with the separator character `'/'`. -/
def startsWithSep (s : String) : Bool := headIsSlash s.data

theorem format_name_data (p m n : String) :
    (format_name p m n).data = p.data ++ '/' :: '/' :: (m.data ++ '/' :: '/' :: n.data) := by
  simp [format_name, String.data_append]

/-- The recognized identity kinds contain no `'/'`. -/
theorem kind_no_slash {k : String} (hk : k = "step" ∨ k = "workflow" ∨ k = "class") :
    '/' ∉ k.data := by
  rcases hk with h | h | h <;> subst h <;> decide

theorem string_data_inj {s₁ s₂ : String} (h : s₁.data = s₂.data) : s₁ = s₂ := by
  cases s₁; cases s₂; exact congrArg String.mk h

/-- Injectivity of `format_name` on recognized kinds, module paths free of the
`"//"` separator and not ending in `'/'`, and names free of `"//"`. -/
theorem format_name_inj (k₁ k₂ m₁ m₂ n₁ n₂ : String)
    (hk₁ : k₁ = "step" ∨ k₁ = "workflow" ∨ k₁ = "class")
    (hk₂ : k₂ = "step" ∨ k₂ = "workflow" ∨ k₂ = "class")
    (hm₁ : containsSep m₁ = false) (hm₂ : containsSep m₂ = false)
    (he₁ : endsWithSep m₁ = false) (he₂ : endsWithSep m₂ = false)
    (h : format_name k₁ m₁ n₁ = format_name k₂ m₂ n₂) :
    k₁ = k₂ ∧ m₁ = m₂ ∧ n₁ = n₂ := by
  have hdata := congrArg String.data h
  rw [format_name_data, format_name_data] at hdata
  obtain ⟨hk, hrest⟩ :=
    append_sep_inj '/' k₁.data k₂.data _ _ (kind_no_slash hk₁) (kind_no_slash hk₂) hdata
  simp only [List.cons.injEq, true_and] at hrest
  obtain ⟨hm, hn⟩ := append_double_slash_inj m₁.data m₂.data n₁.data n₂.data hm₁ hm₂ he₁ he₂ hrest
  exact ⟨string_data_inj hk, string_data_inj hm, string_data_inj hn⟩

/-- C1 (amended).  With `name` outside the `__builtin` family, the module path
free of the separator `"//"` and not ending in `'/'`, and names free of
`"//"`: identity generation is deterministic (independent of the span, so one
triple always yields one string within a run), the ID has the exact form
`"{kind}//{modulePath}//{name}"`, and distinct triples yield distinct IDs. -/
theorem claim_C1_identity_generation
    (cfg : TransformConfig) (name : String) (sp₁ sp₂ : Nat) (w : Bool)
    (k₁ k₂ m₁ m₂ n₁ n₂ : String)
    (hb : strStartsWith name "__builtin" = false)
    (hk₁ : k₁ = "step" ∨ k₁ = "workflow" ∨ k₁ = "class")
    (hk₂ : k₂ = "step" ∨ k₂ = "workflow" ∨ k₂ = "class")
    (hm₁ : containsSep m₁ = false) (hm₂ : containsSep m₂ = false)
    (he₁ : endsWithSep m₁ = false) (he₂ : endsWithSep m₂ = false) :
    create_id cfg (some name) sp₁ w = create_id cfg (some name) sp₂ w ∧
    create_id cfg (some name) sp₁ w
      = format_name (if w then "workflow" else "step") cfg.module_path name ∧
    (format_name k₁ m₁ n₁ = format_name k₂ m₂ n₂ → k₁ = k₂ ∧ m₁ = m₂ ∧ n₁ = n₂) := by
  refine ⟨rfl, ?_, format_name_inj k₁ k₂ m₁ m₂ n₁ n₂ hk₁ hk₂ hm₁ hm₂ he₁ he₂⟩
  simp [create_id, hb]

/-- C1 witness: the amended theorem applied at concrete inputs. -/
theorem claim_C1_identity_generation_witness :
    create_id ⟨"src/a.ts", none⟩ (some "foo") 1 false
        = create_id ⟨"src/a.ts", none⟩ (some "foo") 2 false ∧
    create_id ⟨"src/a.ts", none⟩ (some "foo") 1 false
        = format_name "step" (TransformConfig.module_path ⟨"src/a.ts", none⟩) "foo" ∧
    (format_name "step" "./m" "a" = format_name "workflow" "./p" "b" →
      "step" = "workflow" ∧ "./m" = "./p" ∧ "a" = "b") :=
  claim_C1_identity_generation ⟨"src/a.ts", none⟩ "foo" 1 2 false
    "step" "workflow" "./m" "./p" "a" "b" (by decide)
    (Or.inl rfl) (Or.inr (Or.inl rfl))
    (by decide) (by decide) (by decide) (by decide)

/-- C1 counterexample: the claim as stated is false.  The distinct triples
`("step", "x/", "y")` and `("step", "x", "/y")` contain no occurrence of the
identity separator `"//"` in any component, yet `create_id` maps both to the
same ID string `"step//x///y"`. -/
theorem claim_C1_counterexample :
    create_id ⟨"f.ts", some "x/"⟩ (some "y") 0 false
      = create_id ⟨"f.ts", some "x"⟩ (some "/y") 0 false ∧
    containsSep "step" = false ∧
    containsSep "x/" = false ∧ containsSep "y" = false ∧
    containsSep "x" = false ∧ containsSep "/y" = false ∧
    ("x/", "y") ≠ ("x", "/y") := by
  refine ⟨?_, by decide, by decide, by decide, by decide, by decide, by decide⟩
  decide

/-! ## detect_similar_strings (lib.rs lines 105-139)

The two-pointer loop advancing only the longer side on a mismatch, with the
final check `differences + (la - i) + (lb - j) == 1`.  Recursing on the list
suffixes, the remaining lengths are exactly `la - i` and `lb - j`. -/

/-- The loop with `a_chars.len() > b_chars.len()`: on a mismatch only `i`
advances.  The length comparison reads the full (fixed) lengths, so one run of
the Rust loop stays in a single branch; each comparison case is its own
structurally recursive function here. -/
def detectLoopGt : List Char → List Char → Nat → Bool
  | x :: xs, y :: ys, d =>
    if x ≠ y then
      if d + 1 > 1 then false
      else detectLoopGt xs (y :: ys) (d + 1)
    else detectLoopGt xs ys d
  | xs, ys, d => (d + xs.length + ys.length) == 1

/-- The loop with `b_chars.len() > a_chars.len()`: on a mismatch only `j` advances. -/
def detectLoopLt : List Char → List Char → Nat → Bool
  | x :: xs, y :: ys, d =>
    if x ≠ y then
      if d + 1 > 1 then false
      else detectLoopLt (x :: xs) ys (d + 1)
    else detectLoopLt xs ys d
  | xs, ys, d => (d + xs.length + ys.length) == 1

/-- The loop with equal lengths: both indices advance on a mismatch. -/
def detectLoopEq : List Char → List Char → Nat → Bool
  | x :: xs, y :: ys, d =>
    if x ≠ y then
      if d + 1 > 1 then false
      else detectLoopEq xs ys (d + 1)
    else detectLoopEq xs ys d
  | xs, ys, d => (d + xs.length + ys.length) == 1

def detect_similar_strings (a b : String) : Bool :=
  let a_chars := a.data
  let b_chars := b.data
  if ((a_chars.length : Int) - (b_chars.length : Int)).natAbs > 1 then false
  else if a_chars.length > b_chars.length then detectLoopGt a_chars b_chars 0
  else if b_chars.length > a_chars.length then detectLoopLt a_chars b_chars 0
  else detectLoopEq a_chars b_chars 0

/-! ## A shallow AST for the statement/expression shapes the transform inspects

Function and arrow *expressions* are opaque leaves (`fnE`/`arrowE`): every
modelled routine either skips their bodies (the closure collector) or never
looks at them.  Nested function declaration statements carry only their name,
which is all the closure collector reads from them. -/

mutual
inductive SPat where
  | identP (name : String)
  | arrayP (elems : List (Option SPat))
  | objectP (props : List SPatProp)
  | restP (arg : SPat)
  | assignP (left : SPat)
  | otherP
inductive SPatProp where
  | keyValuePP (value : SPat)
  | assignPP (key : String)
  | restPP (arg : SPat)
end

mutual
inductive SExpr where
  | identE (name : String)
  | strLitE (s : String)
  | otherLitE
  | callE (callee : Option SExpr) (args : List SExpr)
  | memberE (obj : SExpr)
  | binE (l r : SExpr)
  | unaryE (arg : SExpr)
  | condE (test cons alt : SExpr)
  | arrayE (elems : List (Option SExpr))
  | objectE (props : List SProp)
  | parenE (e : SExpr)
  | tplE (exprs : List SExpr)
  | taggedTplE (tag : SExpr) (exprs : List SExpr)
  | arrowE
  | fnE
  | assignE (target : SAssignTarget) (rhs : SExpr)
  | updateE (arg : SExpr)
  | awaitE (arg : SExpr)
  | newE (callee : String) (args : List SExpr)
  | otherE
inductive SProp where
  | kvP (key : Option String) (value : SExpr)
  | methodP
  | shorthandP (name : String)
  | spreadP (e : SExpr)
  | otherProp
inductive SAssignTarget where
  | identT (name : String)
  | memberT (obj : SExpr)
  | otherT
end

inductive ForInit where
  | varInit (decls : List (SPat × Option SExpr))
  | exprInit (e : SExpr)

inductive SStmt where
  | exprS (e : SExpr)
  | varDeclS (decls : List (SPat × Option SExpr))
  | fnDeclS (name : String)
  | ifS (test : SExpr) (cons : SStmt) (alt : Option SStmt)
  | returnS (arg : Option SExpr)
  | blockS (stmts : List SStmt)
  | forS (finit : Option ForInit) (test : Option SExpr) (update : Option SExpr) (body : SStmt)
  | whileS (test : SExpr) (body : SStmt)
  | tryS (block : List SStmt) (hasCatch : Bool) (hasFinally : Bool)
  | throwS (e : SExpr)
  | emptyS
  | otherS

/-- An arrow function body (`BlockStmtOrExpr`). -/
inductive ArrowBody where
  | blockB (stmts : List SStmt)
  | exprB (e : SExpr)

/-- The fields of an swc `Function` the transform reads. -/
structure SFunction where
  params : List SPat
  body : Option (List SStmt)
  is_async : Bool

/-! ## Error kinds (lib.rs lines 13-44); spans are dropped. -/

inductive DirectiveLocation where
  | module
  | functionBody
deriving DecidableEq, Repr

inductive WErr where
  | nonAsyncFunction (directive : String)
  | misplacedDirective (directive : String) (location : DirectiveLocation)
  | misspelledDirective (directive : String) (expected : String)
  | forbiddenExpression (expr : String) (directive : String)
  | invalidExport (directive : String)
deriving DecidableEq, Repr

/-- Is an error a `NonAsyncFunction` diagnostic? -/
def WErr.isNonAsync : WErr → Bool
  | .nonAsyncFunction _ => true
  | _ => false

/-! ## The `using`-pattern helpers (lib.rs lines 141-279) -/

/-- `is_using_env_object` (lib.rs line 143). -/
def is_using_env_object (props : List SProp) : Bool :=
  props.length == 3 &&
  (props.any fun p => match p with | .kvP (some k) _ => k == "stack" | _ => false) &&
  (props.any fun p => match p with | .kvP (some k) _ => k == "error" | _ => false) &&
  (props.any fun p => match p with | .kvP (some k) _ => k == "hasError" | _ => false)

/-- `get_try_block_from_using_pattern` (lib.rs line 182). -/
def get_try_block_from_using_pattern (stmts : List SStmt) : Option (List SStmt) :=
  match stmts with
  | s₀ :: s₁ :: _ =>
    let first_is_env_decl :=
      match s₀ with
      | .varDeclS [(_, some (.objectE props))] => is_using_env_object props
      | _ => false
    if first_is_env_decl then
      match s₁ with
      | .tryS block hasCatch hasFinally =>
        if hasCatch && hasFinally then some block else none
      | _ => none
    else none
  | _ => none

/-- `is_using_pattern` (lib.rs line 227). -/
def is_using_pattern (stmts : List SStmt) : Bool :=
  (get_try_block_from_using_pattern stmts).isSome

/-- `get_directive_from_block` (lib.rs line 232). -/
def get_directive_from_block (block : List SStmt) (directive : String) : Bool :=
  match block.head? with
  | some (.exprS (.strLitE s)) => s == directive
  | _ => false

/-- `get_first_string_literal_from_block` (lib.rs line 244). -/
def get_first_string_literal_from_block (block : List SStmt) : Option String :=
  match block.head? with
  | some (.exprS (.strLitE s)) => some s
  | _ => none

/-- `remove_directive_from_using_pattern` (lib.rs line 259). -/
def remove_directive_from_using_pattern (stmts : List SStmt) (directive : String) :
    List SStmt :=
  if is_using_pattern stmts then
    match stmts with
    | s₀ :: .tryS block hasCatch hasFinally :: rest =>
      match block with
      | .exprS (.strLitE s) :: blockRest =>
        if s = directive then s₀ :: .tryS blockRest hasCatch hasFinally :: rest
        else stmts
      | _ => stmts
    | _ => stmts
  else stmts

/-! ## Directive scanning (lib.rs lines 1919-2042, 2211-2272)

`has_use_step_directive` and `has_use_workflow_directive` are the same loop
instantiated at the two directive strings; emitted diagnostics are returned
alongside the boolean instead of going to the global handler. -/

def directiveScanLoop (directive : String) : List SStmt → Bool → Bool × List WErr
  | [], _ => (false, [])
  | stmt :: rest, is_first_meaningful =>
    match stmt with
    | .exprS (.strLitE s) =>
      if s = directive then
        (true, if is_first_meaningful then []
               else [.misplacedDirective s .functionBody])
      else if detect_similar_strings s directive then
        let r := directiveScanLoop directive rest false
        (r.1, .misspelledDirective s directive :: r.2)
      else
        directiveScanLoop directive rest false
    | _ => directiveScanLoop directive rest false

/-- The common body of `has_use_step_directive` / `has_use_workflow_directive`
(lib.rs lines 1919-1978 and 1981-2042). -/
def has_use_directive (directive : String) (body : Option (List SStmt)) :
    Bool × List WErr :=
  match body with
  | none => (false, [])
  | some stmts =>
    let r := directiveScanLoop directive stmts true
    if r.1 then (true, r.2)
    else
      match get_try_block_from_using_pattern stmts with
      | none => (false, r.2)
      | some tryBlock =>
        if get_directive_from_block tryBlock directive then (true, r.2)
        else
          match get_first_string_literal_from_block tryBlock with
          | some s =>
            if detect_similar_strings s directive then
              (false, r.2 ++ [.misspelledDirective s directive])
            else (false, r.2)
          | none => (false, r.2)

def has_use_step_directive (body : Option (List SStmt)) : Bool × List WErr :=
  has_use_directive "use step" body

def has_use_workflow_directive (body : Option (List SStmt)) : Bool × List WErr :=
  has_use_directive "use workflow" body

/-- The common body of `has_use_step_directive_arrow` /
`has_use_workflow_directive_arrow` (lib.rs lines 2211-2272).  Note: no
misspelling diagnostic for a leading string literal; only the using-pattern
try block is checked for misspellings. -/
def has_use_directive_arrow (directive : String) (body : ArrowBody) :
    Bool × List WErr :=
  match body with
  | .exprB _ => (false, [])
  | .blockB stmts =>
    match stmts with
    | .exprS (.strLitE s) :: _ => (s == directive, [])
    | _ =>
      match get_try_block_from_using_pattern stmts with
      | none => (false, [])
      | some tryBlock =>
        if get_directive_from_block tryBlock directive then (true, [])
        else
          match get_first_string_literal_from_block tryBlock with
          | some s =>
            if detect_similar_strings s directive then
              (false, [.misspelledDirective s directive])
            else (false, [])
          | none => (false, [])

def has_use_step_directive_arrow (body : ArrowBody) : Bool × List WErr :=
  has_use_directive_arrow "use step" body

def has_use_workflow_directive_arrow (body : ArrowBody) : Bool × List WErr :=
  has_use_directive_arrow "use workflow" body

/-- The common body of `remove_use_step_directive` /
`remove_use_workflow_directive` (lib.rs lines 2173-2208). -/
def remove_use_directive (directive : String) (body : Option (List SStmt)) :
    Option (List SStmt) :=
  match body with
  | none => none
  | some stmts =>
    match stmts with
    | .exprS (.strLitE s) :: rest =>
      if s = directive then some rest
      else some (remove_directive_from_using_pattern stmts directive)
    | _ => some (remove_directive_from_using_pattern stmts directive)

/-! ## Classification predicates (lib.rs lines 2910-2923, 3196-3211) -/

/-- `should_transform_function` (lib.rs line 2910); `fileStep` is the
`has_file_step_directive` flag. -/
def should_transform_function (fileStep : Bool) (f : SFunction)
    (is_exported : Bool) : Bool :=
  let has_directive := (has_use_step_directive f.body).1
  (has_directive || (fileStep && is_exported)) && f.is_async

/-- `should_transform_workflow_function` (lib.rs line 2918). -/
def should_transform_workflow_function (fileWorkflow : Bool) (f : SFunction)
    (is_exported : Bool) : Bool :=
  let has_directive := (has_use_workflow_directive f.body).1
  (has_directive || (fileWorkflow && is_exported)) && f.is_async

/-- `has_step_directive` (lib.rs line 3197), with the diagnostics of the scan;
the scan is skipped when the file-level short-circuit fires. -/
def has_step_directive (fileStep : Bool) (f : SFunction) (is_exported : Bool) :
    Bool × List WErr :=
  if fileStep && is_exported then (true, [])
  else has_use_step_directive f.body

/-- `has_workflow_directive` (lib.rs line 3202).  Rust evaluates
`from_file` and `from_body` before `||`, so the scan always runs. -/
def has_workflow_directive (fileWorkflow : Bool) (f : SFunction)
    (is_exported : Bool) : Bool × List WErr :=
  let from_file := fileWorkflow && is_exported
  let scan := has_use_workflow_directive f.body
  (from_file || scan.1, scan.2)

/-! ## The guaranteed-throw rewrite of workflow bodies (C2)

`format!("You attempted to execute workflow {} function directly. To start a
workflow, use start({}) from workflow/api", fn_name, fn_name)` and
`body.stmts = vec![Stmt::Throw(New Error(msg))]` as constructed at
lib.rs lines 5462-5491 (Client mode, inline directive) and 5527-5560
(Step mode, after nested-step hoisting). -/

def workflow_error_msg (fn_name : String) : String :=
  "You attempted to execute workflow " ++ fn_name ++
    " function directly. To start a workflow, use start(" ++ fn_name ++
    ") from workflow/api"

def make_throw_body (fn_name : String) : List SStmt :=
  [.throwS (.newE "Error" [.strLitE (workflow_error_msg fn_name)])]

/-- The Client-mode branch of `visit_mut_export_decl` for an exported workflow
function declaration (lib.rs lines 5454-5496): the whole body is replaced by
the throw only when the function carries an inline directive. -/
def client_rewrite_exported_workflow_fn (fn_name : String)
    (body : Option (List SStmt)) : Option (List SStmt) :=
  let has_inline_directive := (has_use_workflow_directive body).1
  let body' := remove_use_directive "use workflow" body
  if has_inline_directive then body'.map (fun _ => make_throw_body fn_name)
  else body'

/-- The Step-mode rewrite of an exported workflow function, applied after
nested-step hoisting (lib.rs lines 5527-5560): the directive is removed and
the body is unconditionally replaced by the throw. -/
def step_rewrite_exported_workflow_fn (fn_name : String)
    (body : Option (List SStmt)) : Option (List SStmt) :=
  (remove_use_directive "use workflow" body).map (fun _ => make_throw_body fn_name)

/-- Outcome of running a statement list: either some statement throws, or the
list runs to completion. -/
inductive ExecOutcome where
  | thrown (e : SExpr)
  | completed

/-- Straight-line execution of a statement list: the first `throw` aborts. -/
def execBody : List SStmt → ExecOutcome
  | [] => .completed
  | .throwS e :: _ => .thrown e
  | _ :: rest => execBody rest

/-! ## Function-declaration classification (C3, C5)

`visit_mut_fn_decl` (lib.rs lines 5289-5344).  The result records the emitted
diagnostics, whether the name was inserted into `step_function_names` /
`workflow_function_names` (identity generation and hoisting only ever start
from these insertions), and whether `create_registration_call` was invoked. -/

structure FnVisitResult where
  errs : List WErr
  stepAdded : Bool
  workflowAdded : Bool
  registered : Bool
deriving DecidableEq, Repr

def visit_mut_fn_decl (mode : TransformMode) (fileStep fileWorkflow : Bool)
    (f : SFunction) : FnVisitResult :=
  let s := has_step_directive fileStep f false
  if s.1 then
    if f.is_async = false then
      ⟨s.2 ++ [.nonAsyncFunction "use step"], false, false, false⟩
    else
      ⟨s.2, true, false, mode == TransformMode.step⟩
  else
    let w := has_workflow_directive fileWorkflow f false
    if w.1 then
      if f.is_async = false then
        ⟨s.2 ++ w.2 ++ [.nonAsyncFunction "use workflow"], false, false, false⟩
      else
        ⟨s.2 ++ w.2, false, true, false⟩
    else
      ⟨s.2 ++ w.2, false, false, false⟩

/-- `visit_mut_export_default_decl` on a `DefaultDecl::Fn` (lib.rs lines
7210-7382).  Both guards call `should_transform_*`, which require `is_async`,
so a non-async function falls through both branches without any diagnostic;
the inner `validate_async_function` calls can never fail.  The classification
and the guard evaluation are mode-independent. -/
structure DefaultDeclResult where
  errs : List WErr
  stepAdded : Bool
  workflowAdded : Bool
deriving DecidableEq, Repr

def visit_mut_export_default_decl_fn (fileStep fileWorkflow : Bool)
    (f : SFunction) : DefaultDeclResult :=
  let w := has_use_workflow_directive f.body
  let stw := (w.1 || (fileWorkflow && true)) && f.is_async
  if stw then ⟨w.2, false, true⟩
  else
    let s := has_use_step_directive f.body
    let sts := (s.1 || (fileStep && true)) && f.is_async
    if sts then ⟨w.2 ++ s.2, true, false⟩
    else ⟨w.2 ++ s.2, false, false⟩

/-- `visit_mut_function` (lib.rs lines 4490-4516) only runs the two directive
scans (for context flags); it emits no `NonAsyncFunction`. -/
def visit_mut_function_scan (f : SFunction) : List WErr :=
  (has_use_step_directive f.body).2 ++ (has_use_workflow_directive f.body).2

/-! ## Supporting lemmas on the directive scan -/

theorem remove_use_directive_isSome (d : String) (stmts : List SStmt) :
    ∃ r, remove_use_directive d (some stmts) = some r := by
  unfold remove_use_directive
  cases stmts with
  | nil => exact ⟨_, rfl⟩
  | cons s rest =>
    cases s with
    | exprS e =>
      cases e with
      | strLitE str =>
        by_cases h : str = d
        · exact ⟨rest, by simp [h]⟩
        · exact ⟨remove_directive_from_using_pattern
            (SStmt.exprS (SExpr.strLitE str) :: rest) d, by simp [h]⟩
      | identE n => exact ⟨_, rfl⟩
      | otherLitE => exact ⟨_, rfl⟩
      | callE c a => exact ⟨_, rfl⟩
      | memberE o => exact ⟨_, rfl⟩
      | binE l r => exact ⟨_, rfl⟩
      | unaryE a => exact ⟨_, rfl⟩
      | condE a b c => exact ⟨_, rfl⟩
      | arrayE es => exact ⟨_, rfl⟩
      | objectE ps => exact ⟨_, rfl⟩
      | parenE e => exact ⟨_, rfl⟩
      | tplE es => exact ⟨_, rfl⟩
      | taggedTplE t es => exact ⟨_, rfl⟩
      | arrowE => exact ⟨_, rfl⟩
      | fnE => exact ⟨_, rfl⟩
      | assignE t r => exact ⟨_, rfl⟩
      | updateE a => exact ⟨_, rfl⟩
      | awaitE a => exact ⟨_, rfl⟩
      | newE c a => exact ⟨_, rfl⟩
      | otherE => exact ⟨_, rfl⟩
    | varDeclS ds => exact ⟨_, rfl⟩
    | fnDeclS n => exact ⟨_, rfl⟩
    | ifS t c a => exact ⟨_, rfl⟩
    | returnS a => exact ⟨_, rfl⟩
    | blockS ss => exact ⟨_, rfl⟩
    | forS i t u b => exact ⟨_, rfl⟩
    | whileS t b => exact ⟨_, rfl⟩
    | tryS b c fz => exact ⟨_, rfl⟩
    | throwS e => exact ⟨_, rfl⟩
    | emptyS => exact ⟨_, rfl⟩
    | otherS => exact ⟨_, rfl⟩

/-- The scan loop only ever emits `MisplacedDirective` / `MisspelledDirective`. -/
theorem directiveScanLoop_no_nonAsync (d : String) :
    ∀ (stmts : List SStmt) (fst : Bool) (e : WErr),
      e ∈ (directiveScanLoop d stmts fst).2 → e.isNonAsync = false := by
  intro stmts
  induction stmts with
  | nil => intro fst e he; simp [directiveScanLoop] at he
  | cons s rest ih =>
    intro fst e he
    match s with
    | .exprS (.strLitE str) =>
      simp only [directiveScanLoop] at he
      split at he
      · split at he
        · simp at he
        · simp at he
          subst he
          rfl
      · split at he
        · simp at he
          rcases he with he | he
          · subst he; rfl
          · exact ih false e he
        · exact ih false e he
    | .exprS (.identE n) => exact ih false e he
    | .exprS .otherLitE => exact ih false e he
    | .exprS (.callE c a) => exact ih false e he
    | .exprS (.memberE o) => exact ih false e he
    | .exprS (.binE l r) => exact ih false e he
    | .exprS (.unaryE a) => exact ih false e he
    | .exprS (.condE a b c) => exact ih false e he
    | .exprS (.arrayE es) => exact ih false e he
    | .exprS (.objectE ps) => exact ih false e he
    | .exprS (.parenE p) => exact ih false e he
    | .exprS (.tplE es) => exact ih false e he
    | .exprS (.taggedTplE t es) => exact ih false e he
    | .exprS (.arrowE) => exact ih false e he
    | .exprS (.fnE) => exact ih false e he
    | .exprS (.assignE t r) => exact ih false e he
    | .exprS (.updateE a) => exact ih false e he
    | .exprS (.awaitE a) => exact ih false e he
    | .exprS (.newE c a) => exact ih false e he
    | .exprS .otherE => exact ih false e he
    | .varDeclS ds => exact ih false e he
    | .fnDeclS n => exact ih false e he
    | .ifS t c a => exact ih false e he
    | .returnS a => exact ih false e he
    | .blockS ss => exact ih false e he
    | .forS i t u b => exact ih false e he
    | .whileS t b => exact ih false e he
    | .tryS b c fz => exact ih false e he
    | .throwS ex => exact ih false e he
    | .emptyS => exact ih false e he
    | .otherS => exact ih false e he

/-- A directive scan only ever emits `MisplacedDirective` / `MisspelledDirective`. -/
theorem has_use_directive_no_nonAsync (d : String) (body : Option (List SStmt))
    (e : WErr) (he : e ∈ (has_use_directive d body).2) : e.isNonAsync = false := by
  cases body with
  | none => simp [has_use_directive] at he
  | some stmts =>
    simp only [has_use_directive] at he
    split at he
    · exact directiveScanLoop_no_nonAsync d stmts true e he
    · split at he
      · exact directiveScanLoop_no_nonAsync d stmts true e he
      · split at he
        · exact directiveScanLoop_no_nonAsync d stmts true e he
        · split at he
          · split at he
            · simp at he
              rcases he with he | he
              · exact directiveScanLoop_no_nonAsync d stmts true e he
              · subst he; rfl
            · exact directiveScanLoop_no_nonAsync d stmts true e he
          · exact directiveScanLoop_no_nonAsync d stmts true e he

/-- Exact-directive expression statements in a statement list. -/
def containsExactDirectiveStmt (d : String) (stmts : List SStmt) : Bool :=
  stmts.any fun st =>
    match st with
    | .exprS (.strLitE s) => s == d
    | _ => false

/-- Without an exact-directive statement the scan loop reports `false`. -/
theorem directiveScanLoop_not_found (d : String) :
    ∀ (stmts : List SStmt) (fst : Bool),
      containsExactDirectiveStmt d stmts = false →
      (directiveScanLoop d stmts fst).1 = false := by
  intro stmts
  induction stmts with
  | nil => intro fst _; simp [directiveScanLoop]
  | cons s rest ih =>
    intro fst hc
    have hrest : containsExactDirectiveStmt d rest = false := by
      simp only [containsExactDirectiveStmt, List.any_cons, Bool.or_eq_false_iff] at hc
      exact hc.2
    match s with
    | .exprS (.strLitE str) =>
      have hne : str ≠ d := by
        simp only [containsExactDirectiveStmt, List.any_cons, Bool.or_eq_false_iff] at hc
        simpa using hc.1
      simp only [directiveScanLoop, if_neg hne]
      split
      · exact ih false hrest
      · exact ih false hrest
    | .exprS (.identE n) => exact ih false hrest
    | .exprS .otherLitE => exact ih false hrest
    | .exprS (.callE c a) => exact ih false hrest
    | .exprS (.memberE o) => exact ih false hrest
    | .exprS (.binE l r) => exact ih false hrest
    | .exprS (.unaryE a) => exact ih false hrest
    | .exprS (.condE a b c) => exact ih false hrest
    | .exprS (.arrayE es) => exact ih false hrest
    | .exprS (.objectE ps) => exact ih false hrest
    | .exprS (.parenE p) => exact ih false hrest
    | .exprS (.tplE es) => exact ih false hrest
    | .exprS (.taggedTplE t es) => exact ih false hrest
    | .exprS (.arrowE) => exact ih false hrest
    | .exprS (.fnE) => exact ih false hrest
    | .exprS (.assignE t r) => exact ih false hrest
    | .exprS (.updateE a) => exact ih false hrest
    | .exprS (.awaitE a) => exact ih false hrest
    | .exprS (.newE c a) => exact ih false hrest
    | .exprS .otherE => exact ih false hrest
    | .varDeclS ds => exact ih false hrest
    | .fnDeclS n => exact ih false hrest
    | .ifS t c a => exact ih false hrest
    | .returnS a => exact ih false hrest
    | .blockS ss => exact ih false hrest
    | .forS i t u b => exact ih false hrest
    | .whileS t b => exact ih false hrest
    | .tryS b c fz => exact ih false hrest
    | .throwS ex => exact ih false hrest
    | .emptyS => exact ih false hrest
    | .otherS => exact ih false hrest

/-- A statement list headed by an expression statement never matches the
`using` lowering pattern (its first statement must be a declaration). -/
theorem get_try_block_exprS_head (e : SExpr) (rest : List SStmt) :
    get_try_block_from_using_pattern (SStmt.exprS e :: rest) = none := by
  cases rest with
  | nil => rfl
  | cons b t => simp [get_try_block_from_using_pattern]

/-- Without an exact-directive statement (and with a non-declaration first
statement, so the `using` pattern cannot match) the directive check is false. -/
theorem has_use_directive_false_of_exprS_head (d : String) (s : String)
    (rest : List SStmt)
    (hs : s ≠ d) (hr : containsExactDirectiveStmt d rest = false) :
    (has_use_directive d (some (SStmt.exprS (SExpr.strLitE s) :: rest))).1 = false := by
  have hc : containsExactDirectiveStmt d (SStmt.exprS (SExpr.strLitE s) :: rest) = false := by
    simp only [containsExactDirectiveStmt, List.any_cons, Bool.or_eq_false_iff]
    exact ⟨by simp [hs], hr⟩
  have hloop := directiveScanLoop_not_found d (SStmt.exprS (SExpr.strLitE s) :: rest) true hc
  simp [has_use_directive, hloop, get_try_block_exprS_head]

/-! ## C2 -/

/-- Decomposition of the generated error message. -/
theorem workflow_error_msg_data (f : String) :
    (workflow_error_msg f).data =
      "You attempted to execute workflow ".data ++
        (f.data ++ (" function directly. To start a workflow, use start(".data ++
          (f.data ++ ") from workflow/api".data))) := by
  simp [workflow_error_msg, String.data_append, List.append_assoc]

/-- C2 (confirmed).  Whenever the rewrite strategy replaces a workflow body —
Client mode for a top-level workflow function carrying an inline directive
(lib.rs 5454-5496), and Step mode after nested-step hoisting (lib.rs
5527-5560) — the transformed body is exactly one `throw new Error(msg)`
statement; `msg` names the workflow function and directs the caller to
`start(fn)` of `workflow/api`; executing the transformed body always throws. -/
theorem claim_C2_workflow_body_guaranteed_throw
    (fn_name : String) (stmts : List SStmt)
    (hinline : (has_use_workflow_directive (some stmts)).1 = true) :
    client_rewrite_exported_workflow_fn fn_name (some stmts)
        = some (make_throw_body fn_name) ∧
    step_rewrite_exported_workflow_fn fn_name (some stmts)
        = some (make_throw_body fn_name) ∧
    execBody (make_throw_body fn_name)
        = ExecOutcome.thrown (.newE "Error" [.strLitE (workflow_error_msg fn_name)]) ∧
    fn_name.data <:+: (workflow_error_msg fn_name).data ∧
    ("use start(" ++ fn_name ++ ") from workflow/api").data <:+
        (workflow_error_msg fn_name).data := by
  obtain ⟨r, hr⟩ := remove_use_directive_isSome "use workflow" stmts
  refine ⟨?_, ?_, rfl, ?_, ?_⟩
  · simp only [client_rewrite_exported_workflow_fn, has_use_workflow_directive] at hinline ⊢
    simp [hinline, hr]
  · simp [step_rewrite_exported_workflow_fn, hr]
  · exact ⟨"You attempted to execute workflow ".data,
      " function directly. To start a workflow, use start(".data ++
        (fn_name.data ++ ") from workflow/api".data),
      by rw [workflow_error_msg_data]; simp [List.append_assoc]⟩
  · refine ⟨"You attempted to execute workflow ".data ++
      (fn_name.data ++ " function directly. To start a workflow, ".data), ?_⟩
    rw [workflow_error_msg_data]
    have hsplit : (" function directly. To start a workflow, use start(" : String).data
        = " function directly. To start a workflow, ".data ++ "use start(".data := by rfl
    rw [hsplit]
    simp [String.data_append, List.append_assoc]

/-- C2 witness: the theorem applied to a concrete workflow function body. -/
theorem claim_C2_workflow_body_guaranteed_throw_witness :
    client_rewrite_exported_workflow_fn "wf"
        [SStmt.exprS (SExpr.strLitE "use workflow")]
        = some (make_throw_body "wf") ∧
    step_rewrite_exported_workflow_fn "wf"
        [SStmt.exprS (SExpr.strLitE "use workflow")]
        = some (make_throw_body "wf") ∧
    execBody (make_throw_body "wf")
        = ExecOutcome.thrown (.newE "Error" [.strLitE (workflow_error_msg "wf")]) ∧
    ("wf" : String).data <:+: (workflow_error_msg "wf").data ∧
    ("use start(" ++ "wf" ++ ") from workflow/api").data <:+
        (workflow_error_msg "wf").data :=
  claim_C2_workflow_body_guaranteed_throw "wf"
    [SStmt.exprS (SExpr.strLitE "use workflow")] rfl

/-! ## C3 -/

/-- C3 (amended).  A directive-bearing non-async function is excluded from
classification (so from registration, hoisting and identity generation) in
every mode, and `visit_mut_fn_decl` always emits `NonAsyncFunction` for it —
but the default-export declaration path skips a non-async function silently
(its guards require `is_async`, so no diagnostic at all is emitted there),
and `visit_mut_function` never emits `NonAsyncFunction`. -/
theorem claim_C3_non_async_function
    (mode : TransformMode) (fileStep fileWorkflow : Bool) (f : SFunction)
    (hna : f.is_async = false) :
    ((visit_mut_fn_decl mode fileStep fileWorkflow f).stepAdded = false ∧
     (visit_mut_fn_decl mode fileStep fileWorkflow f).workflowAdded = false ∧
     (visit_mut_fn_decl mode fileStep fileWorkflow f).registered = false) ∧
    (((has_step_directive fileStep f false).1 = true ∨
      (has_workflow_directive fileWorkflow f false).1 = true) →
      (visit_mut_fn_decl mode fileStep fileWorkflow f).errs.any WErr.isNonAsync = true) ∧
    ((visit_mut_export_default_decl_fn fileStep fileWorkflow f).stepAdded = false ∧
     (visit_mut_export_default_decl_fn fileStep fileWorkflow f).workflowAdded = false ∧
     (visit_mut_export_default_decl_fn fileStep fileWorkflow f).errs.any
       WErr.isNonAsync = false) ∧
    (visit_mut_function_scan f).any WErr.isNonAsync = false := by
  refine ⟨?_, ?_, ?_, ?_⟩
  · simp only [visit_mut_fn_decl, hna]
    split
    · simp
    · split
      · simp
      · simp
  · intro hdir
    simp only [visit_mut_fn_decl, hna]
    rcases hdir with hdir | hdir
    · simp [hdir, List.any_append, WErr.isNonAsync]
    · split
      · simp [List.any_append, WErr.isNonAsync]
      · simp [hdir, List.any_append, WErr.isNonAsync]
  · have hd : visit_mut_export_default_decl_fn fileStep fileWorkflow f
        = ⟨(has_use_workflow_directive f.body).2 ++ (has_use_step_directive f.body).2,
           false, false⟩ := by
      simp [visit_mut_export_default_decl_fn, hna]
    rw [hd]
    refine ⟨rfl, rfl, ?_⟩
    rw [List.any_eq_false]
    intro e he
    simp only [List.mem_append] at he
    rcases he with he | he
    · have hh : e ∈ (has_use_directive "use workflow" f.body).2 := by
        simpa [has_use_workflow_directive] using he
      simp [has_use_directive_no_nonAsync "use workflow" f.body e hh]
    · have hh : e ∈ (has_use_directive "use step" f.body).2 := by
        simpa [has_use_step_directive] using he
      simp [has_use_directive_no_nonAsync "use step" f.body e hh]
  · rw [List.any_eq_false]
    intro e he
    simp only [visit_mut_function_scan, List.mem_append] at he
    rcases he with he | he
    · have hh : e ∈ (has_use_directive "use step" f.body).2 := by
        simpa [has_use_step_directive] using he
      simp [has_use_directive_no_nonAsync "use step" f.body e hh]
    · have hh : e ∈ (has_use_directive "use workflow" f.body).2 := by
        simpa [has_use_workflow_directive] using he
      simp [has_use_directive_no_nonAsync "use workflow" f.body e hh]

/-- C3 witness: the amended theorem at a concrete non-async step function. -/
theorem claim_C3_non_async_function_witness :
    ((visit_mut_fn_decl .step false false
        ⟨[], some [SStmt.exprS (SExpr.strLitE "use step")], false⟩).stepAdded = false ∧
     (visit_mut_fn_decl .step false false
        ⟨[], some [SStmt.exprS (SExpr.strLitE "use step")], false⟩).workflowAdded = false ∧
     (visit_mut_fn_decl .step false false
        ⟨[], some [SStmt.exprS (SExpr.strLitE "use step")], false⟩).registered = false) ∧
    (((has_step_directive false
        ⟨[], some [SStmt.exprS (SExpr.strLitE "use step")], false⟩ false).1 = true ∨
      (has_workflow_directive false
        ⟨[], some [SStmt.exprS (SExpr.strLitE "use step")], false⟩ false).1 = true) →
      (visit_mut_fn_decl .step false false
        ⟨[], some [SStmt.exprS (SExpr.strLitE "use step")], false⟩).errs.any
          WErr.isNonAsync = true) ∧
    ((visit_mut_export_default_decl_fn false false
        ⟨[], some [SStmt.exprS (SExpr.strLitE "use step")], false⟩).stepAdded = false ∧
     (visit_mut_export_default_decl_fn false false
        ⟨[], some [SStmt.exprS (SExpr.strLitE "use step")], false⟩).workflowAdded = false ∧
     (visit_mut_export_default_decl_fn false false
        ⟨[], some [SStmt.exprS (SExpr.strLitE "use step")], false⟩).errs.any
          WErr.isNonAsync = false) ∧
    (visit_mut_function_scan
        ⟨[], some [SStmt.exprS (SExpr.strLitE "use step")], false⟩).any
      WErr.isNonAsync = false :=
  claim_C3_non_async_function .step false false
    ⟨[], some [SStmt.exprS (SExpr.strLitE "use step")], false⟩ rfl

/-- C3 counterexample: a non-async function with the step directive as the
default-exported declaration is skipped without any diagnostic at all, so the
claim's "a NonAsyncFunction diagnostic is always emitted" is false on this
shape. -/
theorem claim_C3_counterexample :
    (has_use_step_directive (some [SStmt.exprS (SExpr.strLitE "use step")])).1 = true ∧
    (⟨[], some [SStmt.exprS (SExpr.strLitE "use step")], false⟩ : SFunction).is_async
        = false ∧
    visit_mut_export_default_decl_fn false false
        ⟨[], some [SStmt.exprS (SExpr.strLitE "use step")], false⟩
      = ⟨[], false, false⟩ :=
  ⟨rfl, rfl, rfl⟩

/-! ## C4 -/

/-- C4 (amended).  For a function whose leading string-literal statement is
within edit distance 1 of a recognized directive and not an exact directive —
provided no exact directive appears elsewhere in the body and no file-level
directive applies — neither `should_transform_function` nor
`should_transform_workflow_function` is satisfied, and the full-function
directive scans emit `MisspelledDirective` naming the closest recognized
directive; the arrow-body checks report `false` but emit no diagnostic for
the leading literal. -/
theorem claim_C4_misspelled_directive
    (f : SFunction) (s : String) (rest : List SStmt)
    (hbody : f.body = some (SStmt.exprS (SExpr.strLitE s) :: rest))
    (hs1 : s ≠ "use step") (hs2 : s ≠ "use workflow")
    (hr1 : containsExactDirectiveStmt "use step" rest = false)
    (hr2 : containsExactDirectiveStmt "use workflow" rest = false) :
    should_transform_function false f false = false ∧
    should_transform_workflow_function false f false = false ∧
    (detect_similar_strings s "use step" = true →
      WErr.misspelledDirective s "use step" ∈ (has_use_step_directive f.body).2) ∧
    (detect_similar_strings s "use workflow" = true →
      WErr.misspelledDirective s "use workflow"
        ∈ (has_use_workflow_directive f.body).2) ∧
    (has_use_step_directive_arrow
        (.blockB (SStmt.exprS (SExpr.strLitE s) :: rest))).1 = false ∧
    (has_use_step_directive_arrow
        (.blockB (SStmt.exprS (SExpr.strLitE s) :: rest))).2 = [] ∧
    (has_use_workflow_directive_arrow
        (.blockB (SStmt.exprS (SExpr.strLitE s) :: rest))).1 = false ∧
    (has_use_workflow_directive_arrow
        (.blockB (SStmt.exprS (SExpr.strLitE s) :: rest))).2 = [] := by
  have hstep := has_use_directive_false_of_exprS_head "use step" s rest hs1 hr1
  have hwf := has_use_directive_false_of_exprS_head "use workflow" s rest hs2 hr2
  refine ⟨?_, ?_, ?_, ?_, ?_, ?_, ?_, ?_⟩
  · simp [should_transform_function, has_use_step_directive, hbody, hstep]
  · simp [should_transform_workflow_function, has_use_workflow_directive, hbody, hwf]
  · intro hsim
    rw [hbody]
    have h1 : directiveScanLoop "use step" (SStmt.exprS (SExpr.strLitE s) :: rest) true
        = ((directiveScanLoop "use step" rest false).1,
           WErr.misspelledDirective s "use step"
             :: (directiveScanLoop "use step" rest false).2) := by
      simp [directiveScanLoop, if_neg hs1, hsim]
    have hrf := directiveScanLoop_not_found "use step" rest false hr1
    simp [has_use_step_directive, has_use_directive, h1, hrf, get_try_block_exprS_head]
  · intro hsim
    rw [hbody]
    have h1 : directiveScanLoop "use workflow" (SStmt.exprS (SExpr.strLitE s) :: rest) true
        = ((directiveScanLoop "use workflow" rest false).1,
           WErr.misspelledDirective s "use workflow"
             :: (directiveScanLoop "use workflow" rest false).2) := by
      simp [directiveScanLoop, if_neg hs2, hsim]
    have hrf := directiveScanLoop_not_found "use workflow" rest false hr2
    simp [has_use_workflow_directive, has_use_directive, h1, hrf, get_try_block_exprS_head]
  · simp [has_use_step_directive_arrow, has_use_directive_arrow, hs1]
  · simp [has_use_step_directive_arrow, has_use_directive_arrow]
  · simp [has_use_workflow_directive_arrow, has_use_directive_arrow, hs2]
  · simp [has_use_workflow_directive_arrow, has_use_directive_arrow]

/-- C4 witness: the amended theorem at `"use steps"` with an otherwise empty
body. -/
theorem claim_C4_misspelled_directive_witness :
    should_transform_function false
        ⟨[], some [SStmt.exprS (SExpr.strLitE "use steps")], true⟩ false = false ∧
    should_transform_workflow_function false
        ⟨[], some [SStmt.exprS (SExpr.strLitE "use steps")], true⟩ false = false ∧
    (detect_similar_strings "use steps" "use step" = true →
      WErr.misspelledDirective "use steps" "use step"
        ∈ (has_use_step_directive
            (some [SStmt.exprS (SExpr.strLitE "use steps")])).2) ∧
    (detect_similar_strings "use steps" "use workflow" = true →
      WErr.misspelledDirective "use steps" "use workflow"
        ∈ (has_use_workflow_directive
            (some [SStmt.exprS (SExpr.strLitE "use steps")])).2) ∧
    (has_use_step_directive_arrow
        (.blockB [SStmt.exprS (SExpr.strLitE "use steps")])).1 = false ∧
    (has_use_step_directive_arrow
        (.blockB [SStmt.exprS (SExpr.strLitE "use steps")])).2 = [] ∧
    (has_use_workflow_directive_arrow
        (.blockB [SStmt.exprS (SExpr.strLitE "use steps")])).1 = false ∧
    (has_use_workflow_directive_arrow
        (.blockB [SStmt.exprS (SExpr.strLitE "use steps")])).2 = [] :=
  claim_C4_misspelled_directive
    ⟨[], some [SStmt.exprS (SExpr.strLitE "use steps")], true⟩ "use steps" []
    rfl (by decide) (by decide) rfl rfl

/-- C4 counterexample: the claim as stated is false.  With leading literal
`"use steps"` (edit distance 1 from `"use step"`, not exact) followed by a
misplaced exact `"use step"`, the function *does* satisfy
`should_transform_function`. -/
theorem claim_C4_counterexample :
    detect_similar_strings "use steps" "use step" = true ∧
    ("use steps" : String) ≠ "use step" ∧
    ("use steps" : String) ≠ "use workflow" ∧
    should_transform_function false
      ⟨[], some [SStmt.exprS (SExpr.strLitE "use steps"),
                 SStmt.exprS (SExpr.strLitE "use step")], true⟩ false = true := by
  refine ⟨by decide, by decide, by decide, by decide⟩

/-! ## C5 -/

/-- C5 (amended).  `NonAsyncFunction` does abandon classification of the
offending function while the visitor returns normally and the transform
continues; but a `MisplacedDirective` for a function-body directive not in
first position is emitted *without* abandoning classification — the function
is still classified as a step function and still registered in Step mode. -/
theorem claim_C5_error_recovery
    (mode : TransformMode) (x : String) (rest : List SStmt) (f g : SFunction)
    (hfb : f.body = some (SStmt.exprS (SExpr.strLitE x)
        :: SStmt.exprS (SExpr.strLitE "use step") :: rest))
    (hx : x ≠ "use step") (hfa : f.is_async = true)
    (hg : (has_use_step_directive g.body).1 = true) (hga : g.is_async = false) :
    (WErr.misplacedDirective "use step" .functionBody
        ∈ (visit_mut_fn_decl mode false false f).errs ∧
     (visit_mut_fn_decl mode false false f).stepAdded = true ∧
     (visit_mut_fn_decl TransformMode.step false false f).registered = true) ∧
    ((visit_mut_fn_decl mode false false g).errs.any WErr.isNonAsync = true ∧
     (visit_mut_fn_decl mode false false g).stepAdded = false ∧
     (visit_mut_fn_decl mode false false g).registered = false) := by
  have h1 : directiveScanLoop "use step"
      (SStmt.exprS (SExpr.strLitE x) :: SStmt.exprS (SExpr.strLitE "use step") :: rest) true
      = (true, (if detect_similar_strings x "use step" = true
          then [WErr.misspelledDirective x "use step"] else [])
            ++ [WErr.misplacedDirective "use step" .functionBody]) := by
    simp only [directiveScanLoop, if_neg hx]
    split
    · simp [directiveScanLoop]
    · simp [directiveScanLoop]
  have hscan : has_use_step_directive f.body
      = (true, (if detect_similar_strings x "use step" = true
          then [WErr.misspelledDirective x "use step"] else [])
            ++ [WErr.misplacedDirective "use step" .functionBody]) := by
    rw [hfb]
    simp [has_use_step_directive, has_use_directive, h1]
  constructor
  · have hsd : has_step_directive false f false = has_use_step_directive f.body := by
      simp [has_step_directive]
    refine ⟨?_, ?_, ?_⟩
    · simp only [visit_mut_fn_decl, hsd, hscan, hfa]
      simp
    · simp only [visit_mut_fn_decl, hsd, hscan, hfa]
      simp
    · simp only [visit_mut_fn_decl, hsd, hscan, hfa]
      simp
  · have hsd : has_step_directive false g false = has_use_step_directive g.body := by
      simp [has_step_directive]
    refine ⟨?_, ?_, ?_⟩
    · simp only [visit_mut_fn_decl, hsd, hg, hga]
      simp [List.any_append, WErr.isNonAsync, hg]
    · simp only [visit_mut_fn_decl, hsd, hga]
      simp [hg]
    · simp only [visit_mut_fn_decl, hsd, hga]
      simp [hg]

/-- C5 witness: the amended theorem at concrete inputs. -/
theorem claim_C5_error_recovery_witness :
    (WErr.misplacedDirective "use step" .functionBody
        ∈ (visit_mut_fn_decl .client false false
            ⟨[], some [SStmt.exprS (SExpr.strLitE "hello"),
                       SStmt.exprS (SExpr.strLitE "use step")], true⟩).errs ∧
     (visit_mut_fn_decl .client false false
        ⟨[], some [SStmt.exprS (SExpr.strLitE "hello"),
                   SStmt.exprS (SExpr.strLitE "use step")], true⟩).stepAdded = true ∧
     (visit_mut_fn_decl TransformMode.step false false
        ⟨[], some [SStmt.exprS (SExpr.strLitE "hello"),
                   SStmt.exprS (SExpr.strLitE "use step")], true⟩).registered = true) ∧
    ((visit_mut_fn_decl .client false false
        ⟨[], some [SStmt.exprS (SExpr.strLitE "use step")], false⟩).errs.any
          WErr.isNonAsync = true ∧
     (visit_mut_fn_decl .client false false
        ⟨[], some [SStmt.exprS (SExpr.strLitE "use step")], false⟩).stepAdded = false ∧
     (visit_mut_fn_decl .client false false
        ⟨[], some [SStmt.exprS (SExpr.strLitE "use step")], false⟩).registered
          = false) :=
  claim_C5_error_recovery .client "hello" []
    ⟨[], some [SStmt.exprS (SExpr.strLitE "hello"),
               SStmt.exprS (SExpr.strLitE "use step")], true⟩
    ⟨[], some [SStmt.exprS (SExpr.strLitE "use step")], false⟩
    rfl (by decide) rfl rfl rfl

/-- C5 counterexample: the claim as stated is false.  A function whose step
directive is in second position gets a `MisplacedDirective` diagnostic and is
*still* classified and registered in Step mode, contradicting "classification
of that one item is abandoned ... excluded from registration". -/
theorem claim_C5_counterexample :
    visit_mut_fn_decl TransformMode.step false false
        ⟨[], some [SStmt.exprS (SExpr.strLitE "hello"),
                   SStmt.exprS (SExpr.strLitE "use step")], true⟩
      = ⟨[WErr.misplacedDirective "use step" .functionBody], true, false, true⟩ := by
  decide

/-! ## C10: `create_registration_call` (lib.rs lines 2848-2890) -/

/-- The two fields of `StepTransform` that `create_registration_call` touches:
`registered_functions` (a `HashSet<String>`, modelled by a membership list)
and `registration_calls` (the ordered `Vec` of
`registerStepFunction(step_id, fn)` statements, modelled by their
`(step_id, fn_name)` arguments). -/
structure RegState where
  registered_functions : List String
  registration_calls : List (String × String)
deriving DecidableEq, Repr

def create_registration_call (cfg : TransformConfig) (st : RegState)
    (name : String) (span_lo : Nat) : RegState :=
  if st.registered_functions.contains name then st
  else
    { registered_functions := name :: st.registered_functions,
      registration_calls :=
        st.registration_calls ++ [(create_id cfg (some name) span_lo false, name)] }

/-- A whole run's worth of `create_registration_call` invocations, from the
initial empty state of `StepTransform::new`. -/
def run_registrations (cfg : TransformConfig) (calls : List (String × Nat)) : RegState :=
  calls.foldl (fun st p => create_registration_call cfg st p.1 p.2) ⟨[], []⟩

theorem create_registration_call_inv (cfg : TransformConfig) (st : RegState)
    (name : String) (sp : Nat)
    (h1 : ∀ n, n ∈ st.registration_calls.map Prod.snd → n ∈ st.registered_functions)
    (h2 : (st.registration_calls.map Prod.snd).Nodup) :
    (∀ n, n ∈ (create_registration_call cfg st name sp).registration_calls.map Prod.snd →
        n ∈ (create_registration_call cfg st name sp).registered_functions) ∧
    ((create_registration_call cfg st name sp).registration_calls.map Prod.snd).Nodup := by
  unfold create_registration_call
  split
  · exact ⟨h1, h2⟩
  · rename_i hc
    have hname : name ∉ st.registered_functions := by simpa using hc
    constructor
    · intro n hn
      simp only [List.map_append, List.mem_append, List.map_cons, List.map_nil,
        List.mem_singleton] at hn
      rcases hn with hn | hn
      · exact List.mem_cons_of_mem _ (h1 n hn)
      · simp [hn]
    · simp only [List.map_append, List.map_cons, List.map_nil]
      rw [List.nodup_append]
      refine ⟨h2, List.nodup_singleton _, ?_⟩
      intro n hn hmem
      simp only [List.mem_singleton] at hmem
      subst hmem
      exact hname (h1 n hn)

theorem run_registrations_inv (cfg : TransformConfig) :
    ∀ (calls : List (String × Nat)) (st : RegState),
      (∀ n, n ∈ st.registration_calls.map Prod.snd → n ∈ st.registered_functions) →
      (st.registration_calls.map Prod.snd).Nodup →
      ((calls.foldl (fun st p => create_registration_call cfg st p.1 p.2)
          st).registration_calls.map Prod.snd).Nodup := by
  intro calls
  induction calls with
  | nil => intro st _ h2; simpa using h2
  | cons c rest ih =>
    intro st h1 h2
    obtain ⟨h1', h2'⟩ := create_registration_call_inv cfg st c.1 c.2 h1 h2
    simpa using ih (create_registration_call cfg st c.1 c.2) h1' h2'

/-- C10 (confirmed).  At most one step registration call is emitted per name:
a call appends one `registerStepFunction` statement only when the name is
unseen, a later call with the same name is a no-op, and over any whole run
from the empty state every function name occurs at most once among the
registration calls. -/
theorem claim_C10_registration_dedup (cfg : TransformConfig) (st : RegState)
    (name : String) (sp sp' : Nat) (calls : List (String × Nat)) (n : String) :
    (st.registered_functions.contains name = true →
        create_registration_call cfg st name sp = st) ∧
    (st.registered_functions.contains name = false →
        (create_registration_call cfg st name sp).registration_calls
          = st.registration_calls ++ [(create_id cfg (some name) sp false, name)]) ∧
    (create_registration_call cfg (create_registration_call cfg st name sp) name sp'
        = create_registration_call cfg st name sp) ∧
    ((run_registrations cfg calls).registration_calls.map Prod.snd).count n ≤ 1 := by
  refine ⟨?_, ?_, ?_, ?_⟩
  · intro hc
    have hm : name ∈ st.registered_functions := by simpa using hc
    simp [create_registration_call, hm]
  · intro hc
    have hm : name ∉ st.registered_functions := by simpa using hc
    simp [create_registration_call, hm]
  · by_cases hm : name ∈ st.registered_functions
    · simp [create_registration_call, hm]
    · have h1 : create_registration_call cfg st name sp
          = { registered_functions := name :: st.registered_functions,
              registration_calls := st.registration_calls
                ++ [(create_id cfg (some name) sp false, name)] } := by
        simp [create_registration_call, hm]
      rw [h1]
      simp [create_registration_call]
  · have hnd := run_registrations_inv cfg calls ⟨[], []⟩ (by intro n hn; simp at hn)
      (by simp)
    rw [List.nodup_iff_count_le_one] at hnd
    exact hnd n

/-- C10 witness: the theorem applied at concrete inputs. -/
theorem claim_C10_registration_dedup_witness :
    ((RegState.mk ["foo"] []).registered_functions.contains "foo" = true →
        create_registration_call ⟨"a.ts", none⟩ ⟨["foo"], []⟩ "foo" 0 = ⟨["foo"], []⟩) ∧
    ((RegState.mk ["foo"] []).registered_functions.contains "foo" = false →
        (create_registration_call ⟨"a.ts", none⟩ ⟨["foo"], []⟩ "foo" 0).registration_calls
          = [] ++ [(create_id ⟨"a.ts", none⟩ (some "foo") 0 false, "foo")]) ∧
    (create_registration_call ⟨"a.ts", none⟩
        (create_registration_call ⟨"a.ts", none⟩ ⟨["foo"], []⟩ "foo" 0) "foo" 1
        = create_registration_call ⟨"a.ts", none⟩ ⟨["foo"], []⟩ "foo" 0) ∧
    ((run_registrations ⟨"a.ts", none⟩
        [("f", 0), ("g", 1), ("f", 2)]).registration_calls.map Prod.snd).count "f" ≤ 1 :=
  claim_C10_registration_dedup ⟨"a.ts", none⟩ ⟨["foo"], []⟩ "foo" 0 1
    [("f", 0), ("g", 1), ("f", 2)] "f"

/-! ## C7: hoisted identifiers vs identity strings

`visit_mut_program`'s object-property hoisting (lib.rs lines 3779-3800) forms
the hoisted identifier by replacing `'/'` with `'$'` in the parent path and
joining with `'$'`; `create_object_property_id` (lib.rs lines 1470-1484)
joins the same chain with `'/'`.  Compound parent paths are built by
`format!("{}/{}", parent_var_name, prop_key)`
(`process_object_properties_for_step_functions`, lib.rs lines 1630, 1641). -/

/-- Rust `parent_var.replace('/', "$")` (lib.rs line 3785). -/
def replace_slash_dollar (s : String) : String :=
  ⟨s.data.map (fun c => if c = '/' then '$' else c)⟩

/-- The hoisted top-level variable name of an object-property step function
(lib.rs lines 3785-3790). -/
def hoist_var_name (workflow_name parent_var prop_name : String) : String :=
  let safe_parent_var := replace_slash_dollar parent_var
  if workflow_name ≠ "" then
    workflow_name ++ "$" ++ safe_parent_var ++ "$" ++ prop_name
  else
    safe_parent_var ++ "$" ++ prop_name

/-- `create_object_property_id` (lib.rs lines 1470-1484). -/
def create_object_property_id (cfg : TransformConfig)
    (parent_var_name prop_name : String) (is_workflow : Bool)
    (workflow_name : Option String) : String :=
  let fn_name :=
    match workflow_name with
    | some wf_name => wf_name ++ "/" ++ parent_var_name ++ "/" ++ prop_name
    | none => parent_var_name ++ "/" ++ prop_name
  let prefix_ := if is_workflow then "workflow" else "step"
  format_name prefix_ cfg.module_path fn_name

/-- The compound parent path of a nesting chain: the root variable name
extended by one `"{}/{}"` step per property key. -/
def compound_path (root : String) (keys : List String) : String :=
  keys.foldl (fun acc k => acc ++ "/" ++ k) root

/-! Separator-joined character lists and their injectivity. -/

def sepJoin (c : Char) : List (List Char) → List Char
  | [] => []
  | [x] => x
  | x :: xs => x ++ c :: sepJoin c xs

theorem sepJoin_cons_append (c : Char) (a b : List Char) (rest : List (List Char)) :
    sepJoin c ((a ++ c :: b) :: rest) = a ++ c :: sepJoin c (b :: rest) := by
  cases rest with
  | nil => simp [sepJoin]
  | cons r rs => simp [sepJoin, List.append_assoc]

theorem sepJoin_append_single (c : Char) :
    ∀ (xs : List (List Char)), xs ≠ [] → ∀ (y : List Char),
      sepJoin c (xs ++ [y]) = sepJoin c xs ++ c :: y := by
  intro xs
  induction xs with
  | nil => intro h; exact absurd rfl h
  | cons x rest ih =>
    intro _ y
    cases rest with
    | nil => simp [sepJoin]
    | cons x₂ rest' =>
      have h2 := ih (by simp) y
      simp only [List.cons_append] at h2 ⊢
      calc sepJoin c (x :: x₂ :: (rest' ++ [y]))
          = x ++ c :: sepJoin c (x₂ :: (rest' ++ [y])) := by simp [sepJoin]
        _ = x ++ c :: (sepJoin c (x₂ :: rest') ++ c :: y) := by rw [h2]
        _ = sepJoin c (x :: x₂ :: rest') ++ c :: y := by
            simp [sepJoin, List.append_assoc]

theorem sepJoin_inj (c : Char) :
    ∀ (xs ys : List (List Char)),
      (∀ x ∈ xs, c ∉ x) → (∀ y ∈ ys, c ∉ y) →
      xs ≠ [] → ys ≠ [] →
      sepJoin c xs = sepJoin c ys → xs = ys := by
  intro xs
  induction xs with
  | nil => intro ys _ _ hne; exact absurd rfl hne
  | cons x rest ih =>
    intro ys hx hy _ hyne h
    cases ys with
    | nil => exact absurd rfl hyne
    | cons y yrest =>
      cases rest with
      | nil =>
        cases yrest with
        | nil => simpa [sepJoin] using h
        | cons y₂ yrest' =>
          exfalso
          simp only [sepJoin] at h
          have hc : c ∈ x := by
            rw [h]
            exact List.mem_append_right _ (List.mem_cons_self _ _)
          exact hx x (List.mem_cons_self _ _) hc
      | cons x₂ rest' =>
        cases yrest with
        | nil =>
          exfalso
          simp only [sepJoin] at h
          have hc : c ∈ y := by
            rw [← h]
            exact List.mem_append_right _ (List.mem_cons_self _ _)
          exact hy y (List.mem_cons_self _ _) hc
        | cons y₂ yrest' =>
          simp only [sepJoin] at h
          obtain ⟨h₁, h₂⟩ := append_sep_inj c x y _ _
            (hx x (List.mem_cons_self _ _)) (hy y (List.mem_cons_self _ _)) h
          have := ih (y₂ :: yrest')
            (fun a ha => hx a (List.mem_cons_of_mem _ ha))
            (fun a ha => hy a (List.mem_cons_of_mem _ ha))
            (by simp) (by simp) h₂
          rw [h₁, this]

/-- A compound path is the `'/'`-join of its chain. -/
theorem compound_path_data :
    ∀ (keys : List String) (root : String),
      (compound_path root keys).data = sepJoin '/' (root.data :: keys.map String.data) := by
  intro keys
  induction keys with
  | nil => intro root; simp [compound_path, sepJoin]
  | cons k ks ih =>
    intro root
    have hstep : compound_path root (k :: ks) = compound_path (root ++ "/" ++ k) ks := rfl
    rw [hstep, ih]
    have hdata : (root ++ "/" ++ k).data = root.data ++ '/' :: k.data := by
      simp [String.data_append]
    rw [hdata, List.map_cons, sepJoin_cons_append]
    simp [sepJoin]

theorem map_noSlash_id {x : List Char} (h : '/' ∉ x) :
    x.map (fun c => if c = '/' then '$' else c) = x := by
  induction x with
  | nil => rfl
  | cons a rest ih =>
    have ha : a ≠ '/' := fun hc => h (hc ▸ List.mem_cons_self a rest)
    simp only [List.map_cons, if_neg ha, ih (fun hc => h (List.mem_cons_of_mem _ hc))]

theorem map_replace_sepJoin :
    ∀ (xs : List (List Char)), (∀ x ∈ xs, '/' ∉ x) →
      (sepJoin '/' xs).map (fun c => if c = '/' then '$' else c) = sepJoin '$' xs := by
  intro xs
  induction xs with
  | nil => intro _; rfl
  | cons x rest ih =>
    intro hx
    cases rest with
    | nil =>
      simpa [sepJoin] using map_noSlash_id (hx x (List.mem_cons_self _ _))
    | cons x₂ rest' =>
      simp only [sepJoin, List.map_append, List.map_cons]
      rw [map_noSlash_id (hx x (List.mem_cons_self _ _)),
        ih (fun a ha => hx a (List.mem_cons_of_mem _ ha))]
      simp

theorem string_data_injective : Function.Injective String.data :=
  fun _ _ hab => string_data_inj hab

/-- The data of a hoisted name with no enclosing workflow. -/
theorem hoist_var_name_data (pv p : String) :
    (hoist_var_name "" pv p).data
      = (replace_slash_dollar pv).data ++ '$' :: p.data := by
  simp [hoist_var_name, String.data_append]

/-- C7 (amended).  For two object-property step functions with the same
property name under different parent chains, provided every chain segment and
the property name contain neither separator character `'/'` nor `'$'`: the
hoisted top-level identifiers (the `'$'`-joined chain) are distinct, the
identity strings (the `'/'`-joined chain inside
`"step//{modulePath}//{qualifiedName}"`) are distinct, and the hoisted
identifier is exactly the qualified name with `'/'` replaced by `'$'`. -/
theorem claim_C7_hoisted_identifiers
    (cfg : TransformConfig) (root₁ root₂ p : String) (keys₁ keys₂ : List String)
    (h₁ : ∀ s ∈ root₁ :: keys₁, '/' ∉ s.data ∧ '$' ∉ s.data)
    (h₂ : ∀ s ∈ root₂ :: keys₂, '/' ∉ s.data ∧ '$' ∉ s.data)
    (hp : '/' ∉ p.data ∧ '$' ∉ p.data)
    (hne : (root₁, keys₁) ≠ (root₂, keys₂)) :
    hoist_var_name "" (compound_path root₁ keys₁) p
      ≠ hoist_var_name "" (compound_path root₂ keys₂) p ∧
    create_object_property_id cfg (compound_path root₁ keys₁) p false none
      ≠ create_object_property_id cfg (compound_path root₂ keys₂) p false none ∧
    hoist_var_name "" (compound_path root₁ keys₁) p
      = replace_slash_dollar (compound_path root₁ keys₁ ++ "/" ++ p) := by
  set segs₁ : List (List Char) := root₁.data :: keys₁.map String.data with hsegs₁
  set segs₂ : List (List Char) := root₂.data :: keys₂.map String.data with hsegs₂
  have hs₁ : ∀ x ∈ segs₁, '/' ∉ x ∧ '$' ∉ x := by
    intro x hx
    rw [hsegs₁] at hx
    rcases List.mem_cons.mp hx with hx | hx
    · exact hx ▸ h₁ root₁ (List.mem_cons_self _ _)
    · obtain ⟨s, hs, hsx⟩ := List.mem_map.mp hx
      exact hsx ▸ h₁ s (List.mem_cons_of_mem _ hs)
  have hs₂ : ∀ x ∈ segs₂, '/' ∉ x ∧ '$' ∉ x := by
    intro x hx
    rw [hsegs₂] at hx
    rcases List.mem_cons.mp hx with hx | hx
    · exact hx ▸ h₂ root₂ (List.mem_cons_self _ _)
    · obtain ⟨s, hs, hsx⟩ := List.mem_map.mp hx
      exact hsx ▸ h₂ s (List.mem_cons_of_mem _ hs)
  have hsegne : segs₁ ≠ segs₂ := by
    intro h
    rw [hsegs₁, hsegs₂] at h
    simp only [List.cons.injEq] at h
    exact hne (by
      rw [string_data_inj h.1, List.map_injective_iff.mpr string_data_injective h.2])
  -- the hoisted identifier is the `'$'`-join of the chain plus property name
  have hhoist : ∀ (root : String) (keys : List String),
      (∀ s ∈ root :: keys, '/' ∉ s.data ∧ '$' ∉ s.data) →
      (hoist_var_name "" (compound_path root keys) p).data
        = sepJoin '$' ((root.data :: keys.map String.data) ++ [p.data]) := by
    intro root keys h
    rw [hoist_var_name_data]
    have hrep : (replace_slash_dollar (compound_path root keys)).data
        = sepJoin '$' (root.data :: keys.map String.data) := by
      show (compound_path root keys).data.map _ = _
      rw [compound_path_data]
      refine map_replace_sepJoin _ ?_
      intro x hx
      rcases List.mem_cons.mp hx with hx | hx
      · exact hx ▸ (h root (List.mem_cons_self _ _)).1
      · obtain ⟨s, hs, hsx⟩ := List.mem_map.mp hx
        exact hsx ▸ (h s (List.mem_cons_of_mem _ hs)).1
    rw [hrep, ← sepJoin_append_single '$' _ (by simp) p.data]
  -- the qualified name in the identity string is the `'/'`-join
  have hqual : ∀ (root : String) (keys : List String),
      (compound_path root keys ++ "/" ++ p).data
        = sepJoin '/' ((root.data :: keys.map String.data) ++ [p.data]) := by
    intro root keys
    have : (compound_path root keys ++ "/" ++ p).data
        = (compound_path root keys).data ++ '/' :: p.data := by
      simp [String.data_append]
    rw [this, compound_path_data, ← sepJoin_append_single '/' _ (by simp) p.data]
  refine ⟨?_, ?_, ?_⟩
  · intro heq
    have hd := congrArg String.data heq
    rw [hhoist root₁ keys₁ h₁, hhoist root₂ keys₂ h₂] at hd
    have := sepJoin_inj '$' (segs₁ ++ [p.data]) (segs₂ ++ [p.data])
      (by intro x hx
          rcases List.mem_append.mp hx with hx | hx
          · exact (hs₁ x hx).2
          · simp only [List.mem_singleton] at hx; exact hx ▸ hp.2)
      (by intro x hx
          rcases List.mem_append.mp hx with hx | hx
          · exact (hs₂ x hx).2
          · simp only [List.mem_singleton] at hx; exact hx ▸ hp.2)
      (by simp [hsegs₁]) (by simp [hsegs₂]) hd
    exact hsegne (List.append_cancel_right this)
  · intro heq
    have hd := congrArg String.data heq
    simp only [create_object_property_id, format_name_data] at hd
    have hd₂ := List.append_cancel_left hd
    simp only [List.cons.injEq, true_and] at hd₂
    have hd₃ := List.append_cancel_left hd₂
    simp only [List.cons.injEq, true_and] at hd₃
    rw [hqual root₁ keys₁, hqual root₂ keys₂] at hd₃
    have := sepJoin_inj '/' (segs₁ ++ [p.data]) (segs₂ ++ [p.data])
      (by intro x hx
          rcases List.mem_append.mp hx with hx | hx
          · exact (hs₁ x hx).1
          · simp only [List.mem_singleton] at hx; exact hx ▸ hp.1)
      (by intro x hx
          rcases List.mem_append.mp hx with hx | hx
          · exact (hs₂ x hx).1
          · simp only [List.mem_singleton] at hx; exact hx ▸ hp.1)
      (by simp [hsegs₁]) (by simp [hsegs₂]) hd₃
    exact hsegne (List.append_cancel_right this)
  · apply string_data_inj
    rw [hhoist root₁ keys₁ h₁]
    show _ = ((compound_path root₁ keys₁ ++ "/" ++ p).data).map _
    rw [hqual root₁ keys₁]
    rw [map_replace_sepJoin _ ?_]
    intro x hx
    rcases List.mem_append.mp hx with hx | hx
    · exact (hs₁ x hx).1
    · simp only [List.mem_singleton] at hx; exact hx ▸ hp.1

/-- C7 witness: the amended theorem applied at a concrete pair of chains. -/
theorem claim_C7_hoisted_identifiers_witness :
    hoist_var_name "" (compound_path "a" ["b"]) "c"
      ≠ hoist_var_name "" (compound_path "a" []) "c" ∧
    create_object_property_id ⟨"m.ts", none⟩ (compound_path "a" ["b"]) "c" false none
      ≠ create_object_property_id ⟨"m.ts", none⟩ (compound_path "a" []) "c" false none ∧
    hoist_var_name "" (compound_path "a" ["b"]) "c"
      = replace_slash_dollar (compound_path "a" ["b"] ++ "/" ++ "c") :=
  claim_C7_hoisted_identifiers ⟨"m.ts", none⟩ "a" "a" "c" ["b"] []
    (by decide) (by decide) (by decide) (by decide)

/-- C7 counterexample: the claim as stated is false.  Parent chains
`["a$b"]` and `["a","b"]` are different, yet the hoisted identifiers of their
shared property `"c"` coincide (both `"a$b$c"`), because `'$'` is a legal
identifier character; the identity strings still differ. -/
theorem claim_C7_counterexample :
    hoist_var_name "" (compound_path "a$b" []) "c"
      = hoist_var_name "" (compound_path "a" ["b"]) "c" ∧
    ("a$b", ([] : List String)) ≠ ("a", ["b"]) ∧
    create_object_property_id ⟨"m.ts", some "m"⟩ (compound_path "a$b" []) "c" false none
      ≠ create_object_property_id ⟨"m.ts", some "m"⟩ (compound_path "a" ["b"]) "c"
          false none := by
  refine ⟨by decide, by decide, by decide⟩

/-! ## C6: dead-code elimination (lib.rs lines 2952-3194)

Module items as `remove_dead_code` inspects them.  Expression contents are
abstracted to the list of identifier names the `ComprehensiveUsageCollector`
would insert while walking them (`refs`); declarator name patterns reuse
`SPat`.  The item kinds mirror the `match` arms of `remove_dead_code` and
`analyze_usage_comprehensive`. -/

/-- One declarator of a module-level `var` statement: its name pattern,
whether the initializer is a function or arrow expression, and the
identifiers the usage collector reads from the initializer. -/
structure VarItemDecl where
  name : SPat
  initIsFnOrArrow : Bool
  initRefs : List String

/-- The expression shapes `remove_dead_code` distinguishes in expression
statements. -/
inductive DExprKind where
  | identK (name : String)
  | strLitK (s : String)
  | otherLitK
  | otherExprK (refs : List String)

inductive MItem where
  | importD (specs : List String)
  | fnDeclS (name : String) (refs : List String)
  | varDeclS (decls : List VarItemDecl)
  | exprStmtS (kind : DExprKind)
  | emptyStmtS
  | exportFnDecl (name : String) (refs : List String)
  | exportVarDecl (decls : List VarItemDecl)
  | otherItem (refs : List String)

/-- The export-marking sweep of `analyze_usage_comprehensive` (lib.rs lines
3159-3180): exported function names (unless step functions) and exported
`Pat::Ident` variable names are used. -/
def exported_used (stepNames : List String) : MItem → List String
  | .exportFnDecl name _ =>
    if stepNames.contains name then [] else [name]
  | .exportVarDecl decls =>
    decls.filterMap (fun d =>
      match d.name with
      | .identP n => some n
      | _ => none)
  | _ => []

/-- What the `ComprehensiveUsageCollector` (lib.rs lines 3400-3532) inserts
while visiting one module item: imports are skipped, step-function bodies are
skipped, a function's own name inside its body is skipped, and the
initializer of a variable bound to a step function/arrow is skipped. -/
def visit_used (stepNames : List String) : MItem → List String
  | .importD _ => []
  | .fnDeclS name refs =>
    if stepNames.contains name then [] else refs.filter (· ≠ name)
  | .varDeclS decls =>
    decls.flatMap (fun d =>
      match d.name with
      | .identP n => if d.initIsFnOrArrow && stepNames.contains n then [] else d.initRefs
      | _ => d.initRefs)
  | .exprStmtS (.identK n) => [n]
  | .exprStmtS (.strLitK _) => []
  | .exprStmtS .otherLitK => []
  | .exprStmtS (.otherExprK refs) => refs
  | .emptyStmtS => []
  | .exportFnDecl name refs =>
    if stepNames.contains name then [] else refs.filter (· ≠ name)
  | .exportVarDecl decls =>
    decls.flatMap (fun d =>
      match d.name with
      | .identP n => if d.initIsFnOrArrow && stepNames.contains n then [] else d.initRefs
      | _ => d.initRefs)
  | .otherItem refs => refs

/-- `analyze_usage_comprehensive` (lib.rs line 3156). -/
def analyze_usage_comprehensive (stepNames : List String) (items : List MItem) :
    List String :=
  items.flatMap (exported_used stepNames) ++ items.flatMap (visit_used stepNames)

/-- A name survives removal when used or tracked as a step/workflow name. -/
def name_unused (used stepNames workflowNames : List String) (n : String) : Bool :=
  !used.contains n && !stepNames.contains n && !workflowNames.contains n

mutual
/-- `all_bindings_unused` (lib.rs lines 3084-3109), over array-pattern elements. -/
def all_bindings_unused (used s w : List String) : List (Option SPat) → Bool
  | [] => true
  | none :: rest => all_bindings_unused used s w rest
  | some p :: rest => pat_elem_unused used s w p && all_bindings_unused used s w rest

/-- The per-element match of `all_bindings_unused`. -/
def pat_elem_unused (used s w : List String) : SPat → Bool
  | .identP n => name_unused used s w n
  | .arrayP elems => all_bindings_unused used s w elems
  | .objectP props => all_object_bindings_unused used s w props
  | _ => false

/-- `all_object_bindings_unused` (lib.rs lines 3112-3153). -/
def all_object_bindings_unused (used s w : List String) : List SPatProp → Bool
  | [] => true
  | p :: rest => obj_prop_unused used s w p && all_object_bindings_unused used s w rest

/-- The per-property match of `all_object_bindings_unused`; a `Rest` property
only counts when its argument is a plain identifier. -/
def obj_prop_unused (used s w : List String) : SPatProp → Bool
  | .keyValuePP value =>
    match value with
    | .identP n => name_unused used s w n
    | .arrayP elems => all_bindings_unused used s w elems
    | .objectP props => all_object_bindings_unused used s w props
    | _ => false
  | .assignPP key => name_unused used s w key
  | .restPP arg =>
    match arg with
    | .identP n => name_unused used s w n
    | _ => false
end

/-- One declarator of the `Decl::Var` arm of `remove_dead_code`. -/
def declarator_unused (used s w : List String) (d : VarItemDecl) : Bool :=
  match d.name with
  | .identP n => name_unused used s w n
  | .arrayP elems => all_bindings_unused used s w elems
  | .objectP props => all_object_bindings_unused used s w props
  | _ => false

/-- The `should_remove` match of `remove_dead_code` (lib.rs lines 2976-3024):
string-literal expression statements are never removed; exports, imports and
other items are handled elsewhere or kept. -/
def should_remove_item (used s w : List String) : MItem → Bool
  | .fnDeclS name _ => name_unused used s w name
  | .varDeclS decls => decls.all (declarator_unused used s w)
  | .exprStmtS (.identK _) => true
  | .exprStmtS (.strLitK _) => false
  | .exprStmtS .otherLitK => true
  | .exprStmtS (.otherExprK _) => false
  | .emptyStmtS => true
  | _ => false

/-- The import-pruning half of one pass (lib.rs lines 3040-3074): drop unused
specifiers; drop the whole import when none survive. -/
def prune_import (used : List String) : MItem → Option MItem
  | .importD specs =>
    let new_specifiers := specs.filter (fun sp => used.contains sp)
    if new_specifiers.isEmpty then none else some (.importD new_specifiers)
  | it => some it

/-- Did the pruning change this item (`imports_to_remove` / `imports_modified`)? -/
def import_changed (used : List String) : MItem → Bool
  | .importD specs =>
    let new_specifiers := specs.filter (fun sp => used.contains sp)
    new_specifiers.isEmpty || new_specifiers.length != specs.length
  | _ => false

/-- One iteration of the `loop` of `remove_dead_code`: compute the used set,
drop removable items, prune imports, and report whether anything changed. -/
def remove_dead_code_pass (s w : List String) (items : List MItem) :
    List MItem × Bool :=
  let used := analyze_usage_comprehensive s items
  let keep := items.filter (fun it => !(should_remove_item used s w it))
  let items_changed := items.any (should_remove_item used s w)
  let pruned := keep.filterMap (prune_import used)
  let imports_changed := keep.any (import_changed used)
  (pruned, items_changed || imports_changed)

/-- The size of an item for the termination measure: one per item plus one
per import specifier. -/
def itemSize : MItem → Nat
  | .importD specs => 1 + specs.length
  | _ => 1

def dcMeasure (items : List MItem) : Nat := (items.map itemSize).sum

/-- The `loop` of `remove_dead_code`, with fuel; `remove_dead_code` supplies
enough fuel that the fixpoint is always reached before it runs out. -/
def remove_dead_code_loop (s w : List String) : Nat → List MItem → List MItem
  | 0, items => items
  | fuel + 1, items =>
    let r := remove_dead_code_pass s w items
    if r.2 then remove_dead_code_loop s w fuel r.1 else r.1

/-- `remove_dead_code` (lib.rs lines 2952-3081): only runs in Workflow and
Client modes, then iterates to a fixpoint. -/
def remove_dead_code (mode : TransformMode) (s w : List String)
    (items : List MItem) : List MItem :=
  if ¬ (mode = TransformMode.workflow ∨ mode = TransformMode.client) then items
  else remove_dead_code_loop s w (dcMeasure items + 1) items

/-! Termination/fixpoint lemmas for the dead-code loop. -/

def sizeOpt : Option MItem → Nat
  | none => 0
  | some it => itemSize it

/-- Removal and pruning fused into a single per-item step. -/
def passStep (used s w : List String) (a : MItem) : Option MItem :=
  if !(should_remove_item used s w a) then prune_import used a else none

theorem itemSize_pos (it : MItem) : 1 ≤ itemSize it := by
  cases it <;> simp [itemSize]

theorem dcMeasure_cons (a : MItem) (l : List MItem) :
    dcMeasure (a :: l) = itemSize a + dcMeasure l := by
  simp [dcMeasure]

theorem filter_filterMap_fuse (p : MItem → Bool) (g : MItem → Option MItem) :
    ∀ l : List MItem,
      (l.filter p).filterMap g = l.filterMap (fun a => if p a then g a else none)
  | [] => rfl
  | a :: l => by
    by_cases h : p a = true
    · simp [List.filter_cons, h, List.filterMap_cons, filter_filterMap_fuse p g l]
    · simp at h
      simp [List.filter_cons, h, List.filterMap_cons, filter_filterMap_fuse p g l]

theorem pass_fst_eq (s w : List String) (items : List MItem) :
    (remove_dead_code_pass s w items).1
      = items.filterMap
          (passStep (analyze_usage_comprehensive s items) s w) := by
  simp only [remove_dead_code_pass]
  rw [filter_filterMap_fuse]
  rfl

theorem sizeOpt_prune_le (used : List String) (a : MItem) :
    sizeOpt (prune_import used a) ≤ itemSize a := by
  cases a
  case importD specs =>
    simp only [prune_import]
    split
    · simp [sizeOpt]
    · simp only [sizeOpt, itemSize]
      have := List.length_filter_le (fun sp => used.contains sp) specs
      omega
  all_goals simp [prune_import, sizeOpt]

theorem sizeOpt_passStep_le (used s w : List String) (a : MItem) :
    sizeOpt (passStep used s w a) ≤ itemSize a := by
  by_cases h : should_remove_item used s w a = true
  · simp [passStep, h, sizeOpt]
  · simp only [Bool.not_eq_true] at h
    simpa [passStep, h] using sizeOpt_prune_le used a

theorem sizeOpt_passStep_lt_of_removed (used s w : List String) (a : MItem)
    (h : should_remove_item used s w a = true) :
    sizeOpt (passStep used s w a) < itemSize a := by
  simp [passStep, h, sizeOpt]
  exact itemSize_pos a

theorem sizeOpt_prune_lt_of_changed (used : List String) (a : MItem)
    (h : import_changed used a = true) :
    sizeOpt (prune_import used a) < itemSize a := by
  cases a
  case importD specs =>
    simp only [import_changed] at h
    simp only [prune_import]
    split
    case isTrue he =>
      simp only [sizeOpt, itemSize]
      omega
    case isFalse he =>
      simp only [sizeOpt, itemSize]
      have hne : (specs.filter (fun sp => used.contains sp)).length
          ≠ specs.length := by
        rcases Bool.or_eq_true_iff.mp h with h1 | h1
        · exact absurd h1 he
        · simpa using h1
      have hle := List.length_filter_le (fun sp => used.contains sp) specs
      omega
  all_goals simp [import_changed] at h

theorem dcMeasure_filterMap_le (f : MItem → Option MItem) :
    ∀ l : List MItem, (∀ a ∈ l, sizeOpt (f a) ≤ itemSize a) →
      dcMeasure (l.filterMap f) ≤ dcMeasure l
  | [], _ => le_refl _
  | a :: l, h => by
    have ha := h a (List.mem_cons_self a l)
    have hl := dcMeasure_filterMap_le f l (fun b hb => h b (List.mem_cons_of_mem a hb))
    cases hfa : f a with
    | none =>
      rw [hfa] at ha
      simp only [sizeOpt] at ha
      simp only [List.filterMap_cons, hfa, dcMeasure_cons]
      omega
    | some b =>
      rw [hfa] at ha
      simp only [sizeOpt] at ha
      simp only [List.filterMap_cons, hfa, dcMeasure_cons]
      omega

theorem dcMeasure_filterMap_lt (f : MItem → Option MItem) :
    ∀ l : List MItem, (∀ a ∈ l, sizeOpt (f a) ≤ itemSize a) →
      (∃ a ∈ l, sizeOpt (f a) < itemSize a) →
      dcMeasure (l.filterMap f) < dcMeasure l
  | [], _, hw => by simp at hw
  | a :: l, h, hw => by
    have ha := h a (List.mem_cons_self a l)
    have hl := dcMeasure_filterMap_le f l (fun b hb => h b (List.mem_cons_of_mem a hb))
    obtain ⟨c, hc, hclt⟩ := hw
    rcases List.mem_cons.mp hc with hca | hcl
    · subst hca
      cases hfa : f c with
      | none =>
        have := itemSize_pos c
        simp only [List.filterMap_cons, hfa, dcMeasure_cons]
        omega
      | some b =>
        rw [hfa] at hclt
        simp only [sizeOpt] at hclt
        simp only [List.filterMap_cons, hfa, dcMeasure_cons]
        omega
    · have hlt := dcMeasure_filterMap_lt f l
        (fun b hb => h b (List.mem_cons_of_mem a hb)) ⟨c, hcl, hclt⟩
      cases hfa : f a with
      | none =>
        simp only [List.filterMap_cons, hfa, dcMeasure_cons]
        omega
      | some b =>
        rw [hfa] at ha
        simp only [sizeOpt] at ha
        simp only [List.filterMap_cons, hfa, dcMeasure_cons]
        omega

theorem length_filter_eq_imp_filter_eq (p : α → Bool) :
    ∀ l : List α, (l.filter p).length = l.length → l.filter p = l
  | [], _ => rfl
  | a :: l, h => by
    by_cases hp : p a = true
    · rw [List.filter_cons_of_pos hp] at h ⊢
      simp only [List.length_cons] at h
      have h' : (l.filter p).length = l.length := by omega
      rw [length_filter_eq_imp_filter_eq p l h']
    · simp only [Bool.not_eq_true] at hp
      rw [List.filter_cons_of_neg (by simp [hp])] at h
      have := List.length_filter_le p l
      simp only [List.length_cons] at h
      omega

theorem prune_eq_some_of_not_changed (used : List String) (a : MItem)
    (h : import_changed used a = false) : prune_import used a = some a := by
  cases a
  case importD specs =>
    simp only [import_changed, Bool.or_eq_false_iff] at h
    obtain ⟨h1, h2⟩ := h
    have h3 := length_filter_eq_imp_filter_eq (fun sp => used.contains sp) specs
      (by simpa using h2)
    rw [h3] at h1
    simp only [prune_import, h3, h1, Bool.false_eq_true, if_false]
  all_goals simp [prune_import]

theorem filterMap_eq_self_of_some (f : α → Option α) :
    ∀ l : List α, (∀ a ∈ l, f a = some a) → l.filterMap f = l
  | [], _ => rfl
  | a :: l, h => by
    rw [List.filterMap_cons, h a (List.mem_cons_self a l),
      filterMap_eq_self_of_some f l (fun b hb => h b (List.mem_cons_of_mem a hb))]

theorem pass_snd_false (s w : List String) (items : List MItem)
    (h : (remove_dead_code_pass s w items).2 = false) :
    (remove_dead_code_pass s w items).1 = items := by
  simp only [remove_dead_code_pass] at h ⊢
  simp only [Bool.or_eq_false_iff] at h
  obtain ⟨h1, h2⟩ := h
  simp only [List.any_eq_false] at h1
  have hkeep : items.filter
      (fun it => !(should_remove_item (analyze_usage_comprehensive s items) s w it))
      = items := by
    apply List.filter_eq_self.mpr
    intro a ha
    simp [h1 a ha]
  rw [hkeep] at h2 ⊢
  simp only [List.any_eq_false] at h2
  apply filterMap_eq_self_of_some
  intro a ha
  exact prune_eq_some_of_not_changed _ a (by simpa using h2 a ha)

theorem pass_measure_lt (s w : List String) (items : List MItem)
    (h : (remove_dead_code_pass s w items).2 = true) :
    dcMeasure (remove_dead_code_pass s w items).1 < dcMeasure items := by
  rw [pass_fst_eq]
  apply dcMeasure_filterMap_lt
  · intro a _
    exact sizeOpt_passStep_le _ s w a
  · simp only [remove_dead_code_pass, Bool.or_eq_true] at h
    rcases h with h | h
    · simp only [List.any_eq_true] at h
      obtain ⟨a, ha, hra⟩ := h
      exact ⟨a, ha, sizeOpt_passStep_lt_of_removed _ s w a hra⟩
    · simp only [List.any_eq_true] at h
      obtain ⟨a, ha, hca⟩ := h
      have hmem := List.mem_filter.mp ha
      refine ⟨a, hmem.1, ?_⟩
      have hns : should_remove_item (analyze_usage_comprehensive s items) s w a
          = false := by
        have := hmem.2
        simpa using this
      simp only [passStep, hns, Bool.not_false, if_pos]
      exact sizeOpt_prune_lt_of_changed _ a hca

theorem loop_of_pass_false (s w : List String) (fuel : Nat) (items : List MItem)
    (h : (remove_dead_code_pass s w items).2 = false) :
    remove_dead_code_loop s w (fuel + 1) items = items := by
  simp only [remove_dead_code_loop, h, Bool.false_eq_true, if_false]
  exact pass_snd_false s w items h

theorem loop_fix (s w : List String) :
    ∀ fuel items, dcMeasure items < fuel →
      (remove_dead_code_pass s w (remove_dead_code_loop s w fuel items)).2 = false
  | 0, items, h => absurd h (Nat.not_lt_zero _)
  | fuel + 1, items, h => by
    by_cases hr : (remove_dead_code_pass s w items).2 = true
    · have hlt := pass_measure_lt s w items hr
      have hstep : remove_dead_code_loop s w (fuel + 1) items
          = remove_dead_code_loop s w fuel (remove_dead_code_pass s w items).1 := by
        simp only [remove_dead_code_loop, hr, if_true]
      rw [hstep]
      exact loop_fix s w fuel (remove_dead_code_pass s w items).1 (by omega)
    · simp only [Bool.not_eq_true] at hr
      rw [loop_of_pass_false s w fuel items hr]
      exact hr

/-! ## C9: metadata comment generation and insertion (lib.rs lines 3226-3333
and 4372-4396)

The braces in the emitted JSON-like strings are written with their escape
codes.  Hash sets that the source sorts before emission are modeled as lists
sorted with insertion sort; the hash map from export name to const name is an
association list. -/

def sortStrings (l : List String) : List String :=
  l.insertionSort (fun x y => x ≤ y)

/-- `HashMap::get` over an association list. -/
def lookup_const (m : List (String × String)) (k : String) : Option String :=
  (m.find? (fun p => p.1 == k)).map (fun p => p.2)

/-- One `steps` entry for a named step function:
`"{fn_name}":{"stepId":"{step_id}"}` with `step_id` from `create_id`. -/
def step_entry (cfg : TransformConfig) (fn_name : String) : String :=
  "\"" ++ fn_name ++ "\":\x7b\"stepId\":\"" ++ create_id cfg (some fn_name) 0 false
    ++ "\"\x7d"

/-- One `steps` entry for an object-property conversion
`(parent_var, prop_name, step_id)`: the key is `parent_var/prop_name`. -/
def obj_prop_entry (e : String × String × String) : String :=
  "\"" ++ e.1 ++ "/" ++ e.2.1 ++ "\":\x7b\"stepId\":\"" ++ e.2.2 ++ "\"\x7d"

/-- The `steps` map string, when present (lib.rs lines 3230-3252). -/
def steps_map? (cfg : TransformConfig) (stepNames : List String)
    (objProps : List (String × String × String)) : Option String :=
  if !stepNames.isEmpty || !objProps.isEmpty then
    let steps_entries := stepNames.map (step_entry cfg) ++ objProps.map obj_prop_entry
    if !steps_entries.isEmpty then
      some ("\x7b" ++ String.intercalate "," (sortStrings steps_entries) ++ "\x7d")
    else none
  else none

/-- The name fed to `create_id` for a workflow entry: the const name of the
export when recorded, with auto-generated `__default` names normalized back to
`default` (lib.rs lines 3262-3279). -/
def workflow_id_name (exportToConst : List (String × String)) (fn_name : String) :
    String :=
  let actual_name := (lookup_const exportToConst fn_name).getD fn_name
  if (actual_name = "__default" || strStartsWith actual_name "__default$")
      && fn_name = "default" then
    "default"
  else
    actual_name

def workflow_entry (cfg : TransformConfig) (exportToConst : List (String × String))
    (fn_name : String) : String :=
  "\"" ++ fn_name ++ "\":\x7b\"workflowId\":\""
    ++ create_id cfg (some (workflow_id_name exportToConst fn_name)) 0 true ++ "\"\x7d"

/-- The `workflows` map string, when present (lib.rs lines 3255-3286). -/
def workflows_map? (cfg : TransformConfig) (workflowNames : List String)
    (exportToConst : List (String × String)) : Option String :=
  if !workflowNames.isEmpty then
    some ("\x7b"
      ++ String.intercalate ","
          ((sortStrings workflowNames).map (workflow_entry cfg exportToConst))
      ++ "\x7d")
  else none

/-- The `classes` map string, when present (lib.rs lines 3289-3304); each
entry is `"{class_name}":{"classId":"{class_id}"}` with the ID from
`format_name "class"`. -/
def classes_map? (cfg : TransformConfig) (classes : List String) : Option String :=
  if !classes.isEmpty then
    some ("\x7b"
      ++ String.intercalate ","
          ((sortStrings classes).map (fun class_name =>
            "\"" ++ class_name ++ "\":\x7b\"classId\":\""
              ++ format_name "class" cfg.module_path class_name ++ "\"\x7d"))
      ++ "\x7d")
  else none

/-- `self.filename.replace('\\', "/")` (lib.rs line 3306). -/
def relative_filename (filename : String) : String :=
  ⟨filename.data.map (fun c => if c = '\\' then '/' else c)⟩

/-- One top-level part `"{key}":{"{relative_filename}":{map}}`. -/
def metadata_part (key rel v : String) : String :=
  "\"" ++ key ++ "\":\x7b\"" ++ rel ++ "\":" ++ v ++ "\x7d"

/-- `generate_metadata_comment` (lib.rs lines 3226-3333): the parts present
are, in order, `workflows`, `steps`, `classes`; empty when no part is. -/
def generate_metadata_comment (cfg : TransformConfig) (stepNames : List String)
    (objProps : List (String × String × String)) (workflowNames : List String)
    (exportToConst : List (String × String)) (classes : List String) : String :=
  let rel := relative_filename cfg.filename
  let parts :=
    ((workflows_map? cfg workflowNames exportToConst).map
        (metadata_part "workflows" rel)).toList
    ++ ((steps_map? cfg stepNames objProps).map (metadata_part "steps" rel)).toList
    ++ ((classes_map? cfg classes).map (metadata_part "classes" rel)).toList
  if parts.isEmpty then ""
  else "/**__internal_workflows\x7b" ++ String.intercalate "," parts ++ "\x7d*/"

def is_import_item : MItem → Bool
  | .importD _ => true
  | _ => false

/-- `Iterator::position(|item| !import)` over the module body. -/
def position_non_import : List MItem → Option Nat
  | [] => none
  | a :: rest =>
    if !(is_import_item a) then some 0
    else (position_non_import rest).map (fun n => n + 1)

def insert_at_first_non_import (c : String) (items : List MItem) : List MItem :=
  let pos := (position_non_import items).getD 0
  items.take pos ++ MItem.exprStmtS (DExprKind.strLitK c) :: items.drop pos

/-- The insertion site in `visit_mut_program` (lib.rs lines 4372-4396): when
the comment is non-empty, insert it as a string-literal expression statement
at the first non-import position (falling back to the front). -/
def insert_metadata (comment : String) (items : List MItem) : List MItem :=
  if comment = "" then items
  else insert_at_first_non_import comment items

theorem exists_non_import_tail (a : MItem) (items : List MItem)
    (ha : is_import_item a = true)
    (hex : ∃ it ∈ a :: items, is_import_item it = false) :
    ∃ it ∈ items, is_import_item it = false := by
  obtain ⟨it, hit, hni⟩ := hex
  rcases List.mem_cons.mp hit with h1 | h1
  · subst h1
    rw [ha] at hni
    exact absurd hni (by decide)
  · exact ⟨it, h1, hni⟩

theorem position_non_import_isSome :
    ∀ items : List MItem, (∃ it ∈ items, is_import_item it = false) →
      (position_non_import items).isSome = true
  | [], hex => by
    obtain ⟨it, hit, _⟩ := hex
    simp at hit
  | a :: items, hex => by
    by_cases ha : is_import_item a = true
    · have hex' := exists_non_import_tail a items ha hex
      obtain ⟨k, hk⟩ :=
        Option.isSome_iff_exists.mp (position_non_import_isSome items hex')
      simp [position_non_import, ha, hk]
    · simp only [Bool.not_eq_true] at ha
      simp [position_non_import, ha]

theorem insert_core_eq (c : String) :
    ∀ items : List MItem, (∃ it ∈ items, is_import_item it = false) →
      insert_at_first_non_import c items
        = items.takeWhile is_import_item
            ++ MItem.exprStmtS (DExprKind.strLitK c) :: items.dropWhile is_import_item
  | [], hex => by
    obtain ⟨it, hit, _⟩ := hex
    simp at hit
  | a :: items, hex => by
    by_cases ha : is_import_item a = true
    · have hex' := exists_non_import_tail a items ha hex
      obtain ⟨k, hk⟩ :=
        Option.isSome_iff_exists.mp (position_non_import_isSome items hex')
      have hIH := insert_core_eq c items hex'
      simp only [insert_at_first_non_import, hk, Option.getD_some] at hIH
      simp only [insert_at_first_non_import, position_non_import, ha,
        Bool.not_true, Bool.false_eq_true, if_false, hk, Option.map_some,
        Option.getD_some, List.take_succ_cons, List.drop_succ_cons,
        List.takeWhile_cons_of_pos ha, List.dropWhile_cons_of_pos ha,
        List.cons_append]
      exact congrArg (List.cons a) hIH
    · simp only [Bool.not_eq_true] at ha
      have ht : (a :: items).takeWhile is_import_item = [] :=
        List.takeWhile_cons_of_neg (by simp [ha])
      have hd : (a :: items).dropWhile is_import_item = a :: items :=
        List.dropWhile_cons_of_neg (by simp [ha])
      simp [insert_at_first_non_import, position_non_import, ha, ht, hd]

theorem triple_append_ne_empty (s t u : String) (h : s.data ≠ []) :
    s ++ t ++ u ≠ "" := by
  intro he
  have hd := congrArg String.data he
  rw [String.data_append, String.data_append] at hd
  rw [show ("" : String).data = [] from rfl] at hd
  exact h (List.append_eq_nil.mp (List.append_eq_nil.mp hd).1).1

theorem workflows_map_eq_none_iff (cfg : TransformConfig) (wn : List String)
    (e2c : List (String × String)) :
    workflows_map? cfg wn e2c = none ↔ wn = [] := by
  cases wn <;> simp [workflows_map?]

theorem steps_map_eq_none_iff (cfg : TransformConfig) (sn : List String)
    (op : List (String × String × String)) :
    steps_map? cfg sn op = none ↔ (sn = [] ∧ op = []) := by
  cases sn <;> cases op <;> simp [steps_map?]

theorem classes_map_eq_none_iff (cfg : TransformConfig) (cl : List String) :
    classes_map? cfg cl = none ↔ cl = [] := by
  cases cl <;> simp [classes_map?]

theorem generate_metadata_comment_eq_empty_iff (cfg : TransformConfig)
    (sn : List String) (op : List (String × String × String)) (wn : List String)
    (e2c : List (String × String)) (cl : List String) :
    generate_metadata_comment cfg sn op wn e2c cl = ""
      ↔ workflows_map? cfg wn e2c = none ∧ steps_map? cfg sn op = none
          ∧ classes_map? cfg cl = none := by
  cases hw : workflows_map? cfg wn e2c <;>
    cases hs : steps_map? cfg sn op <;>
      cases hc : classes_map? cfg cl <;>
        simp [generate_metadata_comment, hw, hs, hc] <;>
          exact triple_append_ne_empty _ _ _ (by decide)

theorem generate_metadata_comment_shape (cfg : TransformConfig)
    (sn : List String) (op : List (String × String × String)) (wn : List String)
    (e2c : List (String × String)) (cl : List String)
    (h : generate_metadata_comment cfg sn op wn e2c cl ≠ "") :
    ∃ inner, generate_metadata_comment cfg sn op wn e2c cl
      = "/**__internal_workflows\x7b" ++ inner ++ "\x7d*/" := by
  cases hw : workflows_map? cfg wn e2c <;>
    cases hs : steps_map? cfg sn op <;>
      cases hc : classes_map? cfg cl <;>
        simp [generate_metadata_comment, hw, hs, hc] at h ⊢ <;>
          exact ⟨_, rfl⟩

/-- C9: the metadata comment is empty exactly when no step function, object
property conversion, workflow function, or flagged class was found; when
non-empty it has the exact wrapper form `/**__internal_workflows{...}*/` and
contains a `workflows`/`steps`/`classes` sub-key exactly when the
corresponding map is non-empty; a non-empty comment is inserted as exactly one
string-literal statement immediately after the leading import block (given
some non-import item exists), and an empty comment inserts nothing. -/
theorem claim_C9_metadata_comment_emission (cfg : TransformConfig) (sn : List String)
    (op : List (String × String × String)) (wn : List String)
    (e2c : List (String × String)) (cl : List String) (items : List MItem) :
    (generate_metadata_comment cfg sn op wn e2c cl = ""
        ↔ wn = [] ∧ sn = [] ∧ op = [] ∧ cl = []) ∧
    (generate_metadata_comment cfg sn op wn e2c cl ≠ "" →
        ∃ inner, generate_metadata_comment cfg sn op wn e2c cl
          = "/**__internal_workflows\x7b" ++ inner ++ "\x7d*/") ∧
    (workflows_map? cfg wn e2c = none ↔ wn = []) ∧
    (steps_map? cfg sn op = none ↔ (sn = [] ∧ op = [])) ∧
    (classes_map? cfg cl = none ↔ cl = []) ∧
    (generate_metadata_comment cfg sn op wn e2c cl ≠ "" →
      (∃ it ∈ items, is_import_item it = false) →
      insert_metadata (generate_metadata_comment cfg sn op wn e2c cl) items
        = items.takeWhile is_import_item
            ++ MItem.exprStmtS
                (DExprKind.strLitK (generate_metadata_comment cfg sn op wn e2c cl))
              :: items.dropWhile is_import_item) ∧
    (generate_metadata_comment cfg sn op wn e2c cl = "" →
      insert_metadata (generate_metadata_comment cfg sn op wn e2c cl) items
        = items) := by
  refine ⟨?_, ?_, workflows_map_eq_none_iff cfg wn e2c,
    steps_map_eq_none_iff cfg sn op, classes_map_eq_none_iff cfg cl, ?_, ?_⟩
  · rw [generate_metadata_comment_eq_empty_iff, workflows_map_eq_none_iff,
      steps_map_eq_none_iff, classes_map_eq_none_iff]
    exact ⟨fun ⟨a, ⟨b, c⟩, d⟩ => ⟨a, b, c, d⟩, fun ⟨a, b, c, d⟩ => ⟨a, ⟨b, c⟩, d⟩⟩
  · exact generate_metadata_comment_shape cfg sn op wn e2c cl
  · intro hne hex
    rw [insert_metadata, if_neg hne]
    exact insert_core_eq _ items hex
  · intro h0
    rw [insert_metadata, if_pos h0]

theorem claim_C9_metadata_comment_emission_witness :
    generate_metadata_comment ⟨"m.ts", some "m"⟩ ["f"] [] [] [] [] ≠ "" ∧
    insert_metadata (generate_metadata_comment ⟨"m.ts", some "m"⟩ ["f"] [] [] [] [])
        [MItem.importD ["a"], MItem.emptyStmtS]
      = [MItem.importD ["a"],
         MItem.exprStmtS (DExprKind.strLitK
           (generate_metadata_comment ⟨"m.ts", some "m"⟩ ["f"] [] [] [] [])),
         MItem.emptyStmtS] ∧
    generate_metadata_comment ⟨"m.ts", some "m"⟩ [] [] [] [] [] = "" := by
  have hne : generate_metadata_comment ⟨"m.ts", some "m"⟩ ["f"] [] [] [] [] ≠ "" := by
    decide
  refine ⟨hne, ?_, ?_⟩
  · have h := (claim_C9_metadata_comment_emission ⟨"m.ts", some "m"⟩ ["f"] [] [] [] []
        [MItem.importD ["a"], MItem.emptyStmtS]).2.2.2.2.2.1 hne
      ⟨MItem.emptyStmtS, by simp, rfl⟩
    rw [h]
    rfl
  · exact (claim_C9_metadata_comment_emission ⟨"m.ts", some "m"⟩ [] [] [] [] [] []).1.mpr
      ⟨rfl, rfl, rfl, rfl⟩

/-- C6: `remove_dead_code` leaves the module items unchanged in Step mode (it
only runs in Workflow and Client modes), and in every mode it is idempotent:
applying it a second time to its own output changes nothing. -/
theorem claim_C6_dead_code_elimination (mode : TransformMode) (s w : List String)
    (items : List MItem) :
    remove_dead_code TransformMode.step s w items = items ∧
    remove_dead_code mode s w (remove_dead_code mode s w items)
      = remove_dead_code mode s w items := by
  constructor
  · simp [remove_dead_code]
  · by_cases hm : mode = TransformMode.workflow ∨ mode = TransformMode.client
    · have hout : remove_dead_code mode s w items
          = remove_dead_code_loop s w (dcMeasure items + 1) items := by
        simp [remove_dead_code, hm]
      have hfix := loop_fix s w (dcMeasure items + 1) items (by omega)
      rw [hout]
      have : remove_dead_code mode s w
          (remove_dead_code_loop s w (dcMeasure items + 1) items)
          = remove_dead_code_loop s w
              (dcMeasure (remove_dead_code_loop s w (dcMeasure items + 1) items) + 1)
              (remove_dead_code_loop s w (dcMeasure items + 1) items) := by
        simp [remove_dead_code, hm]
      rw [this]
      exact loop_of_pass_false s w _ _ hfix
    · simp [remove_dead_code, hm]

/-! ## C8: closure variable collection (lib.rs lines 449-777, 782-862)

`ClosureVariableCollector` holds three `HashSet<String>` fields; they are
modeled as lists with a guarded insert, so sets built from empty stay
duplicate-free. -/

def global_identifiers : List String :=
  ["console", "process", "global", "globalThis", "window", "document",
   "Array", "Object", "String", "Number", "Boolean", "Date", "Math", "JSON",
   "Promise", "Symbol", "Error", "TypeError", "ReferenceError", "SyntaxError",
   "RegExp", "Map", "Set", "WeakMap", "WeakSet", "parseInt", "parseFloat",
   "isNaN", "isFinite", "encodeURI", "decodeURI", "encodeURIComponent",
   "decodeURIComponent", "undefined", "null", "true", "false", "NaN",
   "Infinity", "setTimeout", "setInterval", "clearTimeout", "clearInterval",
   "fetch", "Response", "Request", "Headers", "URL", "URLSearchParams",
   "TextEncoder", "TextDecoder", "Buffer", "Uint8Array", "Int8Array",
   "Uint16Array", "Int16Array", "Uint32Array", "Int32Array", "Float32Array",
   "Float64Array", "BigInt", "BigInt64Array", "BigUint64Array", "DataView",
   "ArrayBuffer", "SharedArrayBuffer", "Atomics", "Proxy", "Reflect", "Intl",
   "WebAssembly", "require", "module", "exports", "__dirname", "__filename"]

/-- `is_global_identifier` (lib.rs lines 782-862). -/
def is_global_identifier (name : String) : Bool :=
  global_identifiers.contains name

/-- `HashSet::insert` over the list model. -/
def hsInsert (l : List String) (x : String) : List String :=
  if l.contains x then l else l ++ [x]

structure CollectorState where
  closure_vars : List String
  local_vars : List String
  params : List String

mutual
/-- `collect_param_names` (lib.rs lines 516-549). -/
def collect_param_names (st : CollectorState) : SPat → CollectorState
  | .identP name => { st with params := hsInsert st.params name }
  | .arrayP elems => collect_param_names_elems st elems
  | .objectP props => collect_param_names_props st props
  | .restP arg => collect_param_names st arg
  | .assignP left => collect_param_names st left
  | .otherP => st

def collect_param_names_elems (st : CollectorState) :
    List (Option SPat) → CollectorState
  | [] => st
  | none :: rest => collect_param_names_elems st rest
  | some p :: rest => collect_param_names_elems (collect_param_names st p) rest

def collect_param_names_props (st : CollectorState) :
    List SPatProp → CollectorState
  | [] => st
  | .keyValuePP value :: rest =>
    collect_param_names_props (collect_param_names st value) rest
  | .assignPP key :: rest =>
    collect_param_names_props { st with params := hsInsert st.params key } rest
  | .restPP arg :: rest =>
    collect_param_names_props (collect_param_names st arg) rest
end

mutual
/-- `collect_declared_names` (lib.rs lines 626-659): same walk as
`collect_param_names`, inserting into `local_vars`. -/
def collect_declared_names (st : CollectorState) : SPat → CollectorState
  | .identP name => { st with local_vars := hsInsert st.local_vars name }
  | .arrayP elems => collect_declared_names_elems st elems
  | .objectP props => collect_declared_names_props st props
  | .restP arg => collect_declared_names st arg
  | .assignP left => collect_declared_names st left
  | .otherP => st

def collect_declared_names_elems (st : CollectorState) :
    List (Option SPat) → CollectorState
  | [] => st
  | none :: rest => collect_declared_names_elems st rest
  | some p :: rest => collect_declared_names_elems (collect_declared_names st p) rest

def collect_declared_names_props (st : CollectorState) :
    List SPatProp → CollectorState
  | [] => st
  | .keyValuePP value :: rest =>
    collect_declared_names_props (collect_declared_names st value) rest
  | .assignPP key :: rest =>
    collect_declared_names_props
      { st with local_vars := hsInsert st.local_vars key } rest
  | .restPP arg :: rest =>
    collect_declared_names_props (collect_declared_names st arg) rest
end

/-- `collect_from_ident_binding` (lib.rs lines 768-776); the `Expr::Ident` arm
of `collect_from_expr` performs the identical check inline. -/
def collect_from_ident_binding (st : CollectorState) (name : String) :
    CollectorState :=
  if !(st.params.contains name) && !(st.local_vars.contains name) then
    if !(is_global_identifier name) then
      { st with closure_vars := hsInsert st.closure_vars name }
    else st
  else st

mutual
/-- `collect_from_expr` (lib.rs lines 661-766).  Nested arrow and function
expression bodies are not visited; `Expr::New` and literals fall under the
catch-all and are skipped. -/
def collect_from_expr (st : CollectorState) : SExpr → CollectorState
  | .identE name => collect_from_ident_binding st name
  | .callE callee args =>
    collect_from_expr_args (collect_from_expr_opt st callee) args
  | .memberE obj => collect_from_expr st obj
  | .binE l r => collect_from_expr (collect_from_expr st l) r
  | .unaryE arg => collect_from_expr st arg
  | .condE t c a =>
    collect_from_expr (collect_from_expr (collect_from_expr st t) c) a
  | .arrayE elems => collect_from_expr_elems st elems
  | .objectE props => collect_from_expr_props st props
  | .parenE e => collect_from_expr st e
  | .tplE exprs => collect_from_expr_args st exprs
  | .taggedTplE tag exprs => collect_from_expr_args (collect_from_expr st tag) exprs
  | .assignE target rhs =>
    collect_from_assign_target (collect_from_expr st rhs) target
  | .updateE arg => collect_from_expr st arg
  | .awaitE arg => collect_from_expr st arg
  | .strLitE _ => st
  | .otherLitE => st
  | .arrowE => st
  | .fnE => st
  | .newE _ _ => st
  | .otherE => st

def collect_from_expr_opt (st : CollectorState) : Option SExpr → CollectorState
  | some e => collect_from_expr st e
  | none => st

def collect_from_expr_args (st : CollectorState) : List SExpr → CollectorState
  | [] => st
  | e :: rest => collect_from_expr_args (collect_from_expr st e) rest

def collect_from_expr_elems (st : CollectorState) :
    List (Option SExpr) → CollectorState
  | [] => st
  | none :: rest => collect_from_expr_elems st rest
  | some e :: rest => collect_from_expr_elems (collect_from_expr st e) rest

/-- The object-literal arm: key/value values and spreads are visited, method
bodies and shorthand/other properties are not. -/
def collect_from_expr_props (st : CollectorState) : List SProp → CollectorState
  | [] => st
  | .kvP _ value :: rest => collect_from_expr_props (collect_from_expr st value) rest
  | .methodP :: rest => collect_from_expr_props st rest
  | .shorthandP _ :: rest => collect_from_expr_props st rest
  | .spreadP e :: rest => collect_from_expr_props (collect_from_expr st e) rest
  | .otherProp :: rest => collect_from_expr_props st rest

def collect_from_assign_target (st : CollectorState) :
    SAssignTarget → CollectorState
  | .identT name => collect_from_ident_binding st name
  | .memberT obj => collect_from_expr st obj
  | .otherT => st
end

mutual
/-- `collect_from_stmt` (lib.rs lines 557-624); try/throw and other statement
kinds fall under the catch-all. -/
def collect_from_stmt (st : CollectorState) : SStmt → CollectorState
  | .exprS e => collect_from_expr st e
  | .varDeclS decls => collect_var_declarators st decls
  | .fnDeclS name => { st with local_vars := hsInsert st.local_vars name }
  | .ifS test cons alt =>
    collect_from_stmt_opt (collect_from_stmt (collect_from_expr st test) cons) alt
  | .returnS arg => collect_from_expr_opt st arg
  | .blockS stmts => collect_from_block_stmt st stmts
  | .forS finit test update body =>
    collect_from_stmt
      (collect_from_expr_opt
        (collect_from_expr_opt (collect_from_for_init st finit) test) update)
      body
  | .whileS test body => collect_from_stmt (collect_from_expr st test) body
  | .tryS _ _ _ => st
  | .throwS _ => st
  | .emptyS => st
  | .otherS => st

def collect_from_stmt_opt (st : CollectorState) : Option SStmt → CollectorState
  | some s => collect_from_stmt st s
  | none => st

def collect_from_block_stmt (st : CollectorState) : List SStmt → CollectorState
  | [] => st
  | s :: rest => collect_from_block_stmt (collect_from_stmt st s) rest

def collect_from_for_init (st : CollectorState) : Option ForInit → CollectorState
  | some (.varInit decls) => collect_var_declarators st decls
  | some (.exprInit e) => collect_from_expr st e
  | none => st

/-- Per-declarator: declared names first, then the initializer. -/
def collect_var_declarators (st : CollectorState) :
    List (SPat × Option SExpr) → CollectorState
  | [] => st
  | (pat, ini) :: rest =>
    collect_var_declarators
      (collect_from_expr_opt (collect_declared_names st pat) ini) rest
end

/-- The collector state after seeding `local_vars` with the module imports and
collecting the parameter names (lib.rs lines 468-476). -/
def collector_initial (params : List SPat) (module_imports : List String) :
    CollectorState :=
  params.foldl collect_param_names ⟨[], module_imports, []⟩

/-- The collector state after also walking the function body. -/
def collector_after (f : SFunction) (module_imports : List String) :
    CollectorState :=
  match f.body with
  | some body => collect_from_block_stmt (collector_initial f.params module_imports) body
  | none => collector_initial f.params module_imports

/-- `collect_from_function` (lib.rs lines 467-487): closure variables sorted
for deterministic output. -/
def collect_from_function (f : SFunction) (module_imports : List String) :
    List String :=
  sortStrings (collector_after f module_imports).closure_vars

/-! Identifier references the traversal feeds to the closure check, in
traversal order: the `Expr::Ident` names and `AssignTarget` identifier names
reachable by `collect_from_expr`/`collect_from_stmt`. -/

mutual
def exprRefs : SExpr → List String
  | .identE name => [name]
  | .callE callee args => exprOptRefs callee ++ exprListRefs args
  | .memberE obj => exprRefs obj
  | .binE l r => exprRefs l ++ exprRefs r
  | .unaryE arg => exprRefs arg
  | .condE t c a => exprRefs t ++ exprRefs c ++ exprRefs a
  | .arrayE elems => exprElemsRefs elems
  | .objectE props => propsRefs props
  | .parenE e => exprRefs e
  | .tplE exprs => exprListRefs exprs
  | .taggedTplE tag exprs => exprRefs tag ++ exprListRefs exprs
  | .assignE target rhs => exprRefs rhs ++ targetRefs target
  | .updateE arg => exprRefs arg
  | .awaitE arg => exprRefs arg
  | .strLitE _ => []
  | .otherLitE => []
  | .arrowE => []
  | .fnE => []
  | .newE _ _ => []
  | .otherE => []

def exprOptRefs : Option SExpr → List String
  | some e => exprRefs e
  | none => []

def exprListRefs : List SExpr → List String
  | [] => []
  | e :: rest => exprRefs e ++ exprListRefs rest

def exprElemsRefs : List (Option SExpr) → List String
  | [] => []
  | none :: rest => exprElemsRefs rest
  | some e :: rest => exprRefs e ++ exprElemsRefs rest

def propsRefs : List SProp → List String
  | [] => []
  | .kvP _ value :: rest => exprRefs value ++ propsRefs rest
  | .methodP :: rest => propsRefs rest
  | .shorthandP _ :: rest => propsRefs rest
  | .spreadP e :: rest => exprRefs e ++ propsRefs rest
  | .otherProp :: rest => propsRefs rest

def targetRefs : SAssignTarget → List String
  | .identT name => [name]
  | .memberT obj => exprRefs obj
  | .otherT => []
end

mutual
def stmtRefs : SStmt → List String
  | .exprS e => exprRefs e
  | .varDeclS decls => varDeclaratorsRefs decls
  | .fnDeclS _ => []
  | .ifS test cons alt => exprRefs test ++ stmtRefs cons ++ stmtOptRefs alt
  | .returnS arg => exprOptRefs arg
  | .blockS stmts => blockRefs stmts
  | .forS finit test update body =>
    forInitRefs finit ++ exprOptRefs test ++ exprOptRefs update ++ stmtRefs body
  | .whileS test body => exprRefs test ++ stmtRefs body
  | .tryS _ _ _ => []
  | .throwS _ => []
  | .emptyS => []
  | .otherS => []

def stmtOptRefs : Option SStmt → List String
  | some s => stmtRefs s
  | none => []

def blockRefs : List SStmt → List String
  | [] => []
  | s :: rest => stmtRefs s ++ blockRefs rest

def forInitRefs : Option ForInit → List String
  | some (.varInit decls) => varDeclaratorsRefs decls
  | some (.exprInit e) => exprRefs e
  | none => []

def varDeclaratorsRefs : List (SPat × Option SExpr) → List String
  | [] => []
  | (_, ini) :: rest => exprOptRefs ini ++ varDeclaratorsRefs rest
end

def fnBodyRefs (f : SFunction) : List String :=
  match f.body with
  | some body => blockRefs body
  | none => []

/-- One traversal step relates states as follows: parameters unchanged, locals
only grow, and every new closure variable is one of the step's identifier
references and passed the params/locals/globals checks against the pre-state;
duplicate-freeness of the closure list is preserved. -/
def StepOk (refs : List String) (st st' : CollectorState) : Prop :=
  st'.params = st.params ∧
  (∀ x ∈ st.local_vars, x ∈ st'.local_vars) ∧
  (∀ x ∈ st'.closure_vars,
      x ∈ st.closure_vars ∨
        (x ∈ refs ∧ x ∉ st.params ∧ x ∉ st.local_vars
          ∧ is_global_identifier x = false)) ∧
  (st.closure_vars.Nodup → st'.closure_vars.Nodup)

theorem StepOk.refl (refs : List String) (st : CollectorState) : StepOk refs st st :=
  ⟨rfl, fun _ hx => hx, fun _ hx => Or.inl hx, id⟩

theorem StepOk.mono {r r' : List String} {st st' : CollectorState}
    (h : StepOk r st st') (hsub : ∀ x ∈ r, x ∈ r') : StepOk r' st st' := by
  obtain ⟨h1, h2, h3, h4⟩ := h
  refine ⟨h1, h2, ?_, h4⟩
  intro x hx
  rcases h3 x hx with h | ⟨ha, hb, hc, hd⟩
  · exact Or.inl h
  · exact Or.inr ⟨hsub x ha, hb, hc, hd⟩

theorem StepOk.comp {r1 r2 : List String} {st st1 st2 : CollectorState}
    (h1 : StepOk r1 st st1) (h2 : StepOk r2 st1 st2) :
    StepOk (r1 ++ r2) st st2 := by
  obtain ⟨p1, l1, c1, n1⟩ := h1
  obtain ⟨p2, l2, c2, n2⟩ := h2
  refine ⟨p2.trans p1, fun x hx => l2 x (l1 x hx), ?_, fun hn => n2 (n1 hn)⟩
  intro x hx
  rcases c2 x hx with h | ⟨ha, hb, hc, hd⟩
  · rcases c1 x h with h' | ⟨ha, hb, hc, hd⟩
    · exact Or.inl h'
    · exact Or.inr ⟨List.mem_append_left _ ha, hb, hc, hd⟩
  · refine Or.inr ⟨List.mem_append_right _ ha, ?_, ?_, hd⟩
    · rw [p1] at hb
      exact hb
    · intro hmem
      exact hc (l1 x hmem)

theorem StepOk.compSame {r : List String} {st st1 st2 : CollectorState}
    (h1 : StepOk r st st1) (h2 : StepOk r st1 st2) : StepOk r st st2 :=
  StepOk.mono (StepOk.comp h1 h2)
    (fun x hx => by rcases List.mem_append.mp hx with h | h <;> exact h)

theorem hsInsert_nodup {l : List String} {x : String} (h : l.Nodup) :
    (hsInsert l x).Nodup := by
  by_cases hm : x ∈ l
  · simp [hsInsert, hm, h]
  · simp [hsInsert, hm, List.nodup_append, h]

theorem hsInsert_mem {l : List String} {x y : String} (h : y ∈ hsInsert l x) :
    y ∈ l ∨ y = x := by
  by_cases hc : l.contains x = true
  · simp only [hsInsert, hc, if_true] at h
    exact Or.inl h
  · simp only [Bool.not_eq_true] at hc
    simp only [hsInsert, hc, Bool.false_eq_true, if_false] at h
    rcases List.mem_append.mp h with h | h
    · exact Or.inl h
    · simp at h
      exact Or.inr h

theorem hsInsert_subset {l : List String} (x : String) :
    ∀ y ∈ l, y ∈ hsInsert l x := by
  intro y hy
  by_cases hm : x ∈ l
  · simpa [hsInsert, hm] using hy
  · simp [hsInsert, hm, List.mem_append, hy]

theorem collect_from_ident_binding_ok (st : CollectorState) (name : String) :
    StepOk [name] st (collect_from_ident_binding st name) := by
  unfold collect_from_ident_binding
  by_cases hp : (!(st.params.contains name) && !(st.local_vars.contains name)) = true
  · rw [if_pos hp]
    by_cases hg : (!(is_global_identifier name)) = true
    · rw [if_pos hg]
      refine ⟨rfl, fun x hx => hx, ?_, fun hn => hsInsert_nodup hn⟩
      intro x hx
      rcases hsInsert_mem hx with h | h
      · exact Or.inl h
      · subst h
        simp only [Bool.and_eq_true, Bool.not_eq_true'] at hp
        obtain ⟨hp1, hp2⟩ := hp
        refine Or.inr ⟨List.mem_singleton.mpr rfl, ?_, ?_, ?_⟩
        · simpa using hp1
        · simpa using hp2
        · simpa using hg
    · rw [if_neg hg]
      exact StepOk.refl _ _
  · rw [if_neg hp]
    exact StepOk.refl _ _

theorem local_insert_ok (st : CollectorState) (name : String) (refs : List String) :
    StepOk refs st { st with local_vars := hsInsert st.local_vars name } :=
  ⟨rfl, fun x hx => hsInsert_subset name x hx, fun _ hx => Or.inl hx, id⟩

mutual
theorem collect_declared_names_ok :
    ∀ (p : SPat) (st : CollectorState) (refs : List String),
      StepOk refs st (collect_declared_names st p)
  | .identP name, st, refs => local_insert_ok st name refs
  | .arrayP elems, st, refs => collect_declared_names_elems_ok elems st refs
  | .objectP props, st, refs => collect_declared_names_props_ok props st refs
  | .restP arg, st, refs => collect_declared_names_ok arg st refs
  | .assignP left, st, refs => collect_declared_names_ok left st refs
  | .otherP, st, refs => StepOk.refl refs st

theorem collect_declared_names_elems_ok :
    ∀ (l : List (Option SPat)) (st : CollectorState) (refs : List String),
      StepOk refs st (collect_declared_names_elems st l)
  | [], st, refs => StepOk.refl refs st
  | none :: rest, st, refs => collect_declared_names_elems_ok rest st refs
  | some p :: rest, st, refs =>
    StepOk.compSame (collect_declared_names_ok p st refs)
      (collect_declared_names_elems_ok rest (collect_declared_names st p) refs)

theorem collect_declared_names_props_ok :
    ∀ (l : List SPatProp) (st : CollectorState) (refs : List String),
      StepOk refs st (collect_declared_names_props st l)
  | [], st, refs => StepOk.refl refs st
  | .keyValuePP value :: rest, st, refs =>
    StepOk.compSame (collect_declared_names_ok value st refs)
      (collect_declared_names_props_ok rest (collect_declared_names st value) refs)
  | .assignPP key :: rest, st, refs =>
    StepOk.compSame (local_insert_ok st key refs)
      (collect_declared_names_props_ok rest _ refs)
  | .restPP arg :: rest, st, refs =>
    StepOk.compSame (collect_declared_names_ok arg st refs)
      (collect_declared_names_props_ok rest (collect_declared_names st arg) refs)
end

mutual
theorem collect_from_expr_ok : ∀ (e : SExpr) (st : CollectorState),
    StepOk (exprRefs e) st (collect_from_expr st e)
  | .identE name, st => collect_from_ident_binding_ok st name
  | .callE callee args, st => by
    simp only [collect_from_expr, exprRefs]
    exact StepOk.comp (collect_from_expr_opt_ok callee st)
      (collect_from_expr_args_ok args _)
  | .memberE obj, st => by
    simp only [collect_from_expr, exprRefs]
    exact collect_from_expr_ok obj st
  | .binE l r, st => by
    simp only [collect_from_expr, exprRefs]
    exact StepOk.comp (collect_from_expr_ok l st) (collect_from_expr_ok r _)
  | .unaryE arg, st => by
    simp only [collect_from_expr, exprRefs]
    exact collect_from_expr_ok arg st
  | .condE t c a, st => by
    simp only [collect_from_expr, exprRefs]
    exact StepOk.comp
      (StepOk.comp (collect_from_expr_ok t st) (collect_from_expr_ok c _))
      (collect_from_expr_ok a _)
  | .arrayE elems, st => by
    simp only [collect_from_expr, exprRefs]
    exact collect_from_expr_elems_ok elems st
  | .objectE props, st => by
    simp only [collect_from_expr, exprRefs]
    exact collect_from_expr_props_ok props st
  | .parenE e, st => by
    simp only [collect_from_expr, exprRefs]
    exact collect_from_expr_ok e st
  | .tplE exprs, st => by
    simp only [collect_from_expr, exprRefs]
    exact collect_from_expr_args_ok exprs st
  | .taggedTplE tag exprs, st => by
    simp only [collect_from_expr, exprRefs]
    exact StepOk.comp (collect_from_expr_ok tag st)
      (collect_from_expr_args_ok exprs _)
  | .assignE target rhs, st => by
    simp only [collect_from_expr, exprRefs]
    exact StepOk.comp (collect_from_expr_ok rhs st)
      (collect_from_assign_target_ok target _)
  | .updateE arg, st => by
    simp only [collect_from_expr, exprRefs]
    exact collect_from_expr_ok arg st
  | .awaitE arg, st => by
    simp only [collect_from_expr, exprRefs]
    exact collect_from_expr_ok arg st
  | .strLitE _, st => StepOk.refl _ st
  | .otherLitE, st => StepOk.refl _ st
  | .arrowE, st => StepOk.refl _ st
  | .fnE, st => StepOk.refl _ st
  | .newE _ _, st => StepOk.refl _ st
  | .otherE, st => StepOk.refl _ st

theorem collect_from_expr_opt_ok : ∀ (o : Option SExpr) (st : CollectorState),
    StepOk (exprOptRefs o) st (collect_from_expr_opt st o)
  | some e, st => collect_from_expr_ok e st
  | none, st => StepOk.refl _ st

theorem collect_from_expr_args_ok : ∀ (l : List SExpr) (st : CollectorState),
    StepOk (exprListRefs l) st (collect_from_expr_args st l)
  | [], st => StepOk.refl _ st
  | e :: rest, st => by
    simp only [collect_from_expr_args, exprListRefs]
    exact StepOk.comp (collect_from_expr_ok e st)
      (collect_from_expr_args_ok rest _)

theorem collect_from_expr_elems_ok :
    ∀ (l : List (Option SExpr)) (st : CollectorState),
      StepOk (exprElemsRefs l) st (collect_from_expr_elems st l)
  | [], st => StepOk.refl _ st
  | none :: rest, st => by
    simp only [collect_from_expr_elems, exprElemsRefs]
    exact collect_from_expr_elems_ok rest st
  | some e :: rest, st => by
    simp only [collect_from_expr_elems, exprElemsRefs]
    exact StepOk.comp (collect_from_expr_ok e st)
      (collect_from_expr_elems_ok rest _)

theorem collect_from_expr_props_ok :
    ∀ (l : List SProp) (st : CollectorState),
      StepOk (propsRefs l) st (collect_from_expr_props st l)
  | [], st => StepOk.refl _ st
  | .kvP _ value :: rest, st => by
    simp only [collect_from_expr_props, propsRefs]
    exact StepOk.comp (collect_from_expr_ok value st)
      (collect_from_expr_props_ok rest _)
  | .methodP :: rest, st => by
    simp only [collect_from_expr_props, propsRefs]
    exact collect_from_expr_props_ok rest st
  | .shorthandP _ :: rest, st => by
    simp only [collect_from_expr_props, propsRefs]
    exact collect_from_expr_props_ok rest st
  | .spreadP e :: rest, st => by
    simp only [collect_from_expr_props, propsRefs]
    exact StepOk.comp (collect_from_expr_ok e st)
      (collect_from_expr_props_ok rest _)
  | .otherProp :: rest, st => by
    simp only [collect_from_expr_props, propsRefs]
    exact collect_from_expr_props_ok rest st

theorem collect_from_assign_target_ok :
    ∀ (t : SAssignTarget) (st : CollectorState),
      StepOk (targetRefs t) st (collect_from_assign_target st t)
  | .identT name, st => collect_from_ident_binding_ok st name
  | .memberT obj, st => collect_from_expr_ok obj st
  | .otherT, st => StepOk.refl _ st
end

mutual
theorem collect_from_stmt_ok : ∀ (s : SStmt) (st : CollectorState),
    StepOk (stmtRefs s) st (collect_from_stmt st s)
  | .exprS e, st => collect_from_expr_ok e st
  | .varDeclS decls, st => collect_var_declarators_ok decls st
  | .fnDeclS name, st => local_insert_ok st name _
  | .ifS test cons alt, st => by
    simp only [collect_from_stmt, stmtRefs]
    exact StepOk.comp
      (StepOk.comp (collect_from_expr_ok test st) (collect_from_stmt_ok cons _))
      (collect_from_stmt_opt_ok alt _)
  | .returnS arg, st => collect_from_expr_opt_ok arg st
  | .blockS stmts, st => collect_from_block_stmt_ok stmts st
  | .forS finit test update body, st => by
    simp only [collect_from_stmt, stmtRefs]
    exact StepOk.comp
      (StepOk.comp
        (StepOk.comp (collect_from_for_init_ok finit st)
          (collect_from_expr_opt_ok test _))
        (collect_from_expr_opt_ok update _))
      (collect_from_stmt_ok body _)
  | .whileS test body, st => by
    simp only [collect_from_stmt, stmtRefs]
    exact StepOk.comp (collect_from_expr_ok test st) (collect_from_stmt_ok body _)
  | .tryS _ _ _, st => StepOk.refl _ st
  | .throwS _, st => StepOk.refl _ st
  | .emptyS, st => StepOk.refl _ st
  | .otherS, st => StepOk.refl _ st

theorem collect_from_stmt_opt_ok : ∀ (o : Option SStmt) (st : CollectorState),
    StepOk (stmtOptRefs o) st (collect_from_stmt_opt st o)
  | some s, st => collect_from_stmt_ok s st
  | none, st => StepOk.refl _ st

theorem collect_from_block_stmt_ok : ∀ (l : List SStmt) (st : CollectorState),
    StepOk (blockRefs l) st (collect_from_block_stmt st l)
  | [], st => StepOk.refl _ st
  | s :: rest, st => by
    simp only [collect_from_block_stmt, blockRefs]
    exact StepOk.comp (collect_from_stmt_ok s st)
      (collect_from_block_stmt_ok rest _)

theorem collect_from_for_init_ok : ∀ (o : Option ForInit) (st : CollectorState),
    StepOk (forInitRefs o) st (collect_from_for_init st o)
  | some (.varInit decls), st => collect_var_declarators_ok decls st
  | some (.exprInit e), st => collect_from_expr_ok e st
  | none, st => StepOk.refl _ st

theorem collect_var_declarators_ok :
    ∀ (l : List (SPat × Option SExpr)) (st : CollectorState),
      StepOk (varDeclaratorsRefs l) st (collect_var_declarators st l)
  | [], st => StepOk.refl _ st
  | (pat, ini) :: rest, st => by
    simp only [collect_var_declarators, varDeclaratorsRefs]
    have h0 : StepOk ([] : List String) st (collect_declared_names st pat) :=
      collect_declared_names_ok pat st []
    have h1 := collect_from_expr_opt_ok ini (collect_declared_names st pat)
    have h2 := collect_var_declarators_ok rest
      (collect_from_expr_opt (collect_declared_names st pat) ini)
    exact StepOk.comp (StepOk.comp h0 h1) h2
end

/-! Parameter collection touches only the `params` field. -/

mutual
theorem collect_param_names_preserves : ∀ (p : SPat) (st : CollectorState),
    (collect_param_names st p).closure_vars = st.closure_vars ∧
    (collect_param_names st p).local_vars = st.local_vars
  | .identP _, _ => ⟨rfl, rfl⟩
  | .arrayP elems, st => collect_param_names_elems_preserves elems st
  | .objectP props, st => collect_param_names_props_preserves props st
  | .restP arg, st => collect_param_names_preserves arg st
  | .assignP left, st => collect_param_names_preserves left st
  | .otherP, _ => ⟨rfl, rfl⟩

theorem collect_param_names_elems_preserves :
    ∀ (l : List (Option SPat)) (st : CollectorState),
      (collect_param_names_elems st l).closure_vars = st.closure_vars ∧
      (collect_param_names_elems st l).local_vars = st.local_vars
  | [], _ => ⟨rfl, rfl⟩
  | none :: rest, st => collect_param_names_elems_preserves rest st
  | some p :: rest, st => by
    have h1 := collect_param_names_preserves p st
    have h2 := collect_param_names_elems_preserves rest (collect_param_names st p)
    exact ⟨h2.1.trans h1.1, h2.2.trans h1.2⟩

theorem collect_param_names_props_preserves :
    ∀ (l : List SPatProp) (st : CollectorState),
      (collect_param_names_props st l).closure_vars = st.closure_vars ∧
      (collect_param_names_props st l).local_vars = st.local_vars
  | [], _ => ⟨rfl, rfl⟩
  | .keyValuePP value :: rest, st => by
    have h1 := collect_param_names_preserves value st
    have h2 := collect_param_names_props_preserves rest (collect_param_names st value)
    exact ⟨h2.1.trans h1.1, h2.2.trans h1.2⟩
  | .assignPP key :: rest, st =>
    collect_param_names_props_preserves rest
      { st with params := hsInsert st.params key }
  | .restPP arg :: rest, st => by
    have h1 := collect_param_names_preserves arg st
    have h2 := collect_param_names_props_preserves rest (collect_param_names st arg)
    exact ⟨h2.1.trans h1.1, h2.2.trans h1.2⟩
end

theorem foldl_param_preserves : ∀ (ps : List SPat) (st : CollectorState),
    (ps.foldl collect_param_names st).closure_vars = st.closure_vars ∧
    (ps.foldl collect_param_names st).local_vars = st.local_vars
  | [], _ => ⟨rfl, rfl⟩
  | p :: ps, st => by
    have h1 := collect_param_names_preserves p st
    have h2 := foldl_param_preserves ps (collect_param_names st p)
    exact ⟨h2.1.trans h1.1, h2.2.trans h1.2⟩

theorem collector_initial_closure (params : List SPat) (imports : List String) :
    (collector_initial params imports).closure_vars = [] :=
  (foldl_param_preserves params ⟨[], imports, []⟩).1

theorem collector_initial_locals (params : List SPat) (imports : List String) :
    (collector_initial params imports).local_vars = imports :=
  (foldl_param_preserves params ⟨[], imports, []⟩).2

theorem collector_after_ok (f : SFunction) (imports : List String) :
    StepOk (fnBodyRefs f) (collector_initial f.params imports)
      (collector_after f imports) := by
  cases hb : f.body with
  | none =>
    simp only [collector_after, fnBodyRefs, hb]
    exact StepOk.refl [] _
  | some body =>
    simp only [collector_after, fnBodyRefs, hb]
    exact collect_from_block_stmt_ok body _

/-- C8: `collect_from_function` returns a sorted, duplicate-free list; every
returned identifier is not a collected parameter name, not a module import,
and not on the global allow-list; and when every identifier reference in the
body is a collected parameter name or an allow-listed global, the result is
empty.  (The claim's stronger exclusion of all locally declared bindings fails
for a reference placed before its declaration; see the counterexample.) -/
theorem claim_C8_closure_variables (f : SFunction) (imports : List String) :
    List.Sorted (fun x y => x ≤ y) (collect_from_function f imports) ∧
    (collect_from_function f imports).Nodup ∧
    (∀ x ∈ collect_from_function f imports,
        x ∉ (collector_initial f.params imports).params ∧ x ∉ imports
          ∧ is_global_identifier x = false) ∧
    ((∀ x ∈ fnBodyRefs f, x ∈ (collector_initial f.params imports).params
        ∨ is_global_identifier x = true) →
      collect_from_function f imports = []) := by
  obtain ⟨hp, hl, hc, hn⟩ := collector_after_ok f imports
  have hinit := collector_initial_closure f.params imports
  have hloc := collector_initial_locals f.params imports
  have hperm : List.Perm (sortStrings (collector_after f imports).closure_vars)
      ((collector_after f imports).closure_vars) :=
    List.perm_insertionSort _ _
  refine ⟨List.sorted_insertionSort _ _, ?_, ?_, ?_⟩
  · exact hperm.symm.nodup (hn (by rw [hinit]; exact List.nodup_nil))
  · intro x hx
    have hx' : x ∈ (collector_after f imports).closure_vars := hperm.mem_iff.mp hx
    rcases hc x hx' with h | ⟨_, hb, hcl, hg⟩
    · rw [hinit] at h
      simp at h
    · refine ⟨hb, ?_, hg⟩
      rw [hloc] at hcl
      exact hcl
  · intro H
    have hclo : (collector_after f imports).closure_vars = [] := by
      rw [List.eq_nil_iff_forall_not_mem]
      intro x hx
      rcases hc x hx with h | ⟨ha, hb, _, hg⟩
      · rw [hinit] at h
        simp at h
      · rcases H x ha with h | h
        · exact hb h
        · rw [hg] at h
          exact absurd h (by decide)
    simp only [collect_from_function, hclo]
    rfl

theorem claim_C8_closure_variables_witness :
    ("outer" ∉ (collector_initial [SPat.identP "a"] ["imp"]).params ∧
      "outer" ∉ ["imp"] ∧ is_global_identifier "outer" = false) ∧
    collect_from_function
        ⟨[SPat.identP "a"],
         some [SStmt.exprS (SExpr.callE none
            [SExpr.identE "a", SExpr.identE "console"])], true⟩ ["imp"]
      = [] := by
  constructor
  · exact (claim_C8_closure_variables
      ⟨[SPat.identP "a"],
       some [SStmt.exprS (SExpr.callE none
          [SExpr.identE "a", SExpr.identE "console", SExpr.identE "outer"])],
       true⟩ ["imp"]).2.2.1 "outer" (by decide)
  · exact (claim_C8_closure_variables
      ⟨[SPat.identP "a"],
       some [SStmt.exprS (SExpr.callE none
          [SExpr.identE "a", SExpr.identE "console"])], true⟩ ["imp"]).2.2.2
      (by decide)

theorem claim_C8_counterexample :
    collect_from_function
        ⟨[], some [SStmt.exprS (SExpr.identE "x"),
           SStmt.varDeclS [(SPat.identP "x", none)]], true⟩ []
      = ["x"] ∧
    "x" ∈ (collector_after
        ⟨[], some [SStmt.exprS (SExpr.identE "x"),
           SStmt.varDeclS [(SPat.identP "x", none)]], true⟩ []).local_vars := by
  exact ⟨by decide, by decide⟩

end Workflow
